import Mathlib

/-!
# LUMINA night lamp: the client-side engine of `script_js.h`

A shallow embedding of the JavaScript served by the lamp (`SCRIPT_JS` in
`night_lamp6.5/script_js.h`, with the markup of `alarms_html.h` and
`index_html.h` where the script reads it), followed by theorems about it.

Conventions of the embedding:

* JavaScript numbers that the script only ever uses as integers (minutes of the
  day, epoch seconds, `Date.now()` milliseconds, slider positions) are `Nat` or
  `Int`.  `NaN` is `none` where a parse can produce it, `Infinity` is `none` in
  `minDiff`.
* The two brightness conversions really are floating point in the script; they
  are embedded with an explicit model of IEEE-754 binary64 rounding.
* `new Date()`, `Date.now()` and the host timers are inputs of the embedded
  functions: the current weekday, the current minute and the current
  millisecond count are passed as arguments.
-/

namespace Lumina

/-! ## Helpers (`script_js.h`, lines 4-7) and string parsing -/

/-- The pieces of `s.split(':')`, on the characters of `s`. -/
def splitColon : List Char → List (List Char)
  | [] => [[]]
  | c :: cs =>
    if c = ':' then [] :: splitColon cs
    else
      match splitColon cs with
      | [] => [[c]]
      | p :: ps => (c :: p) :: ps

/-- Value of a decimal digit, `none` for any other character. -/
def digitVal (c : Char) : Option Nat :=
  if c.isDigit then some (c.toNat - '0'.toNat) else none

/-- Left-to-right accumulation of decimal digits; `none` as soon as a character
is not a digit. -/
def digitsVal (s : List Char) : Option Nat :=
  s.foldl
    (fun acc c =>
      match acc, digitVal c with
      | some n, some d => some (10 * n + d)
      | _, _ => none)
    (some 0)

/-- The conversion `Number(s)` for a piece of `alarm.time`: the value of a
string of decimal digits, and 0 for the empty string.  Every other string is
`none`, which stands for `NaN`; the embedding does not cover the further
literal forms `Number` accepts (surrounding white space, a sign, a fraction, an
exponent, a radix prefix, `Infinity`), none of which occurs in a well-formed
`HH:MM` time. -/
def jsNumber (s : List Char) : Option Nat := digitsVal s

/-! ## Alarms (`script_js.h`, lines 259-339) -/

/-- One entry of `/alarms/list`: `{id, time:"HH:MM", days:string, enabled:bool}`. -/
structure Alarm where
  id : Nat
  time : String
  days : String
  enabled : Bool
deriving DecidableEq

/-- The labels of the seven `button.day` elements of `alarms_html.h`, which are
also the entries of `dayNames` in `computeNextAlarm`; index 0 is Sunday. -/
def dayNames : Fin 7 → Char
  | 0 => 'S'
  | 1 => 'M'
  | 2 => 'T'
  | 3 => 'W'
  | 4 => 'T'
  | 5 => 'F'
  | 6 => 'S'

/-- The function `dayLettersFromRow()`: the text of the active day buttons, in document
order, joined.  `active d` says whether the button at position `d` carries the
class `active`. -/
def dayLettersFromRow (active : Fin 7 → Bool) : String :=
  String.mk (((List.finRange 7).filter active).map dayNames)

/-- The alarm's minute of the day,
`const [ah, am] = alarm.time.split(':').map(Number); ah*60 + am`.
The destructuring reads the first two pieces; a missing piece or a `NaN` piece
makes the sum `NaN` (`none`). -/
def alarmTime (time : String) : Option Nat :=
  match (splitColon time.data).map jsNumber with
  | some ah :: some am :: _ => some (ah * 60 + am)
  | _ => none

/-- The inner function `dayEnabled(d)` of `computeNextAlarm`, for the string
`days = alarm.days || ''`:
`if (!days || days.length===0) return true; return days.indexOf(dayNames[d]) !== -1;` -/
def dayEnabled (days : String) (d : Fin 7) : Bool :=
  if days.data.isEmpty then true else days.data.contains (dayNames d)

/-- The weekday `(currentDay + i) % 7`. -/
def dayAfter (currentDay : Fin 7) (i : Nat) : Fin 7 :=
  ⟨(currentDay.val + i) % 7, Nat.mod_lt _ (by decide)⟩

/-- The result object `{ nextAlarm, minDiff }`; `minDiff = none` is `Infinity`. -/
structure NextAlarm where
  nextAlarm : Option Alarm
  minDiff : Option Int
deriving DecidableEq

/-- The comparison `diff < minDiff`, where `minDiff` may be `Infinity`. -/
def ltMinDiff (diff : Int) (minDiff : Option Int) : Bool :=
  match minDiff with
  | none => true
  | some m => decide (diff < m)

/-- The `for (let i=1;i<=7;i++)` loop of `computeNextAlarm` up to its `break`:
the first `i` in `1..7` for which `dayEnabled((currentDay + i) % 7)` holds. -/
def firstForward (days : String) (currentDay : Fin 7) : Option Nat :=
  [1, 2, 3, 4, 5, 6, 7].find? (fun i => dayEnabled days (dayAfter currentDay i))

/-- The body of `alarms.forEach(alarm => ...)` in `computeNextAlarm`, as a
function of the running `{nextAlarm, minDiff}`. -/
def visitAlarm (currentDay : Fin 7) (currentTime : Nat) (acc : NextAlarm) (alarm : Alarm) :
    NextAlarm :=
  if !alarm.enabled then acc
  else
    match alarmTime alarm.time with
    | none => acc -- every comparison with `NaN` is false
    | some alarmTime =>
      let acc1 :=
        if dayEnabled alarm.days currentDay then
          let diff : Int := (alarmTime : Int) - (currentTime : Int)
          if 0 < diff && ltMinDiff diff acc.minDiff then ⟨some alarm, some diff⟩ else acc
        else acc
      match firstForward alarm.days currentDay with
      | none => acc1
      | some i =>
        let diff : Int := (alarmTime : Int) + 24 * 60 * (i : Int) - (currentTime : Int)
        if ltMinDiff diff acc1.minDiff then ⟨some alarm, some diff⟩ else acc1

/-- The function `computeNextAlarm(alarms)`, with `now.getDay()` and
`now.getHours()*60 + now.getMinutes()` as the arguments `currentDay` and
`currentTime`. -/
def computeNextAlarm (alarms : List Alarm) (currentDay : Fin 7) (currentTime : Nat) : NextAlarm :=
  alarms.foldl (visitAlarm currentDay currentTime) ⟨none, none⟩

/-- A well-formed `HH:MM` time: two digits, a colon, two digits, with the hour
below 24 and the minute below 60. -/
def WellFormedTime (time : String) : Prop :=
  ∃ a b c d : Char, time.data = [a, b, ':', c, d] ∧
    a.isDigit = true ∧ b.isDigit = true ∧ c.isDigit = true ∧ d.isDigit = true ∧
    10 * (a.toNat - 48) + (b.toNat - 48) < 24 ∧ 10 * (c.toNat - 48) + (d.toNat - 48) < 60

/-- The candidate of one alarm as the specification words it: the same-day
difference when today matches and the alarm is still ahead, otherwise the
difference to the first matching day of the forward scan; no candidate for a
disabled alarm or when no day matches. -/
def candidateDiff (currentDay : Fin 7) (currentTime : Nat) (alarm : Alarm) : Option Int :=
  if !alarm.enabled then none
  else
    match alarmTime alarm.time with
    | none => none
    | some t =>
      if dayEnabled alarm.days currentDay && decide (currentTime < t) then
        some ((t : Int) - (currentTime : Int))
      else
        match firstForward alarm.days currentDay with
        | none => none
        | some i => some ((t : Int) + 1440 * (i : Int) - (currentTime : Int))

/-- One comparison-and-update step `if (diff<minDiff){ minDiff=diff; nextAlarm=alarm; }`
for an optional candidate. -/
def updateWith (acc : NextAlarm) (alarm : Alarm) : Option Int → NextAlarm
  | none => acc
  | some d => if ltMinDiff d acc.minDiff then ⟨some alarm, some d⟩ else acc

/-- The state `{nextAlarm, minDiff}` names the first alarm of `pre` whose
candidate is least among the candidates of `pre`, or nothing when `pre` has no
candidate. -/
def FirstMin (cd : Fin 7) (ct : Nat) (pre : List Alarm) (acc : NextAlarm) : Prop :=
  (acc = ⟨none, none⟩ ∧ ∀ a ∈ pre, candidateDiff cd ct a = none) ∨
  ∃ a m, acc = ⟨some a, some m⟩ ∧
    (∀ b ∈ pre, ∀ d, candidateDiff cd ct b = some d → m ≤ d) ∧
    pre.find? (fun b => candidateDiff cd ct b == some m) = some a

/-- A sample list: an every-day alarm, a disabled alarm and a Tuesday alarm at
the same time of day as the first. -/
def sampleAlarms : List Alarm :=
  [⟨1, "08:00", "", true⟩, ⟨2, "07:30", "M", false⟩, ⟨3, "08:00", "T", true⟩]

/-! ## Brightness conversions (`script_js.h`, lines 78-88 and 136-146)

`sendRGB` and `sendHP` compute `Math.round((p/100)*255)` and `fetchStatus`
computes `Math.round(r/2.55)` in IEEE-754 double precision.  The operands here
are positive and far from the overflow and subnormal ranges, so a double is
modelled by its exact value, a fraction of naturals, and every arithmetic
operation is the exact operation followed by rounding to 53 significant bits,
ties to even. -/

/-- A non-negative rational `num / den`: the exact value of a finite
non-negative double, or of an arithmetic result before it is rounded. -/
structure Frac where
  num : Nat
  den : Nat
deriving DecidableEq

/-- The integer nearest to `n / d`, ties to the even one. -/
def roundHalfEven (n d : Nat) : Nat :=
  let q := n / d
  let r := n % d
  if 2 * r < d then q else if d < 2 * r then q + 1 else if q % 2 = 0 then q else q + 1

/-- Halving `n` until it is below 2, at most `fuel` times, counting the steps. -/
def log2Fuel : Nat → Nat → Nat
  | 0, _ => 0
  | fuel + 1, n => if n < 2 then 0 else log2Fuel fuel (n / 2) + 1

/-- The position of the leading bit of `n`: `floor (log2 n)` for positive `n`
(`n` halvings are more than enough). -/
def log2 (n : Nat) : Nat := log2Fuel n n

/-- The binary exponent of `n / d`, that is `floor (log2 (n / d))`, for positive
`n` and `d`: the difference `k` of the leading-bit positions, or one less when
`n / d` is below `2 ^ k`. -/
def floorLog2 (n d : Nat) : Int :=
  let k : Int := (log2 n : Int) - (log2 d : Int)
  if 2 ^ k.toNat * d ≤ n * 2 ^ (-k).toNat then k else k - 1

/-- Rounding to the nearest double (binary64, round to nearest, ties to even):
the value is scaled by a power of two so that its integer part has 53 bits,
rounded to an integer `m`, and scaled back. -/
def binary64 (x : Frac) : Frac :=
  if x.num = 0 ∨ x.den = 0 then ⟨0, 1⟩
  else
    let e : Int := floorLog2 x.num x.den - 52
    let m := roundHalfEven (x.num * 2 ^ (-e).toNat) (x.den * 2 ^ e.toNat)
    ⟨m * 2 ^ e.toNat, 2 ^ (-e).toNat⟩

/-- An integer as a double. -/
def Frac.ofNat (n : Nat) : Frac := ⟨n, 1⟩

/-- The JavaScript `a / b` on doubles. -/
def jsDiv (a b : Frac) : Frac := binary64 ⟨a.num * b.den, a.den * b.num⟩

/-- The JavaScript `a * b` on doubles. -/
def jsMul (a b : Frac) : Frac := binary64 ⟨a.num * b.num, a.den * b.den⟩

/-- The function `Math.round(x)` for `x ≥ 0`: the nearest integer, a tie going up, which is
`floor (x + 1/2)`. -/
def mathRound (x : Frac) : Nat := (2 * x.num + x.den) / (2 * x.den)

/-- The push conversion of `sendRGB` and `sendHP`:
`Math.round((p/100)*255)` for the slider position `p`. -/
def toRaw (p : Nat) : Nat :=
  mathRound (jsMul (jsDiv (Frac.ofNat p) (Frac.ofNat 100)) (Frac.ofNat 255))

/-- The display conversion of `fetchStatus`: `Math.round(r/2.55)` for the
device value `r`; the literal `2.55` is the double nearest to 255/100. -/
def toPercent (r : Nat) : Nat :=
  mathRound (jsDiv (Frac.ofNat r) (binary64 ⟨255, 100⟩))

/-! ## Device clock (`script_js.h`, lines 9-11, 117-122, 153-164) -/

/-- The globals `deviceEpoch` (`null` is `none`) and `lastSyncMs`. -/
structure Clock where
  deviceEpoch : Option Int
  lastSyncMs : Int
deriving DecidableEq

/-- The script's initial values: `deviceEpoch = null`, `lastSyncMs = 0`. -/
def Clock.init : Clock := ⟨none, 0⟩

/-- The sample taken by `fetchStatus` when `typeof js.epoch === 'number'`:
`deviceEpoch = js.epoch; lastSyncMs = Date.now();`. -/
def setSample (_c : Clock) (epoch now : Int) : Clock := ⟨some epoch, now⟩

/-- The body of the one-second `setInterval` callback, with `Date.now()` as
`now`.  `Math.floor((now - lastSyncMs)/1000)` is the integer division `/` of
`Int`, which rounds down for the positive divisor 1000 (the double quotient
has the same floor for every difference below 2^43 ms). -/
def clockTick (c : Clock) (now : Int) : Clock :=
  match c.deviceEpoch with
  | none => c
  | some epoch =>
    let delta := (now - c.lastSyncMs) / 1000
    if 0 < delta then ⟨some (epoch + delta), c.lastSyncMs + delta * 1000⟩ else c

/-! ## `debounce` (`script_js.h`, line 4) on a host timer queue -/

/-- Leading white space skipped by `parseInt`: the ECMAScript white space and
line terminator code points. -/
def isJsSpace (c : Char) : Bool :=
  c.toNat = 9 || c.toNat = 10 || c.toNat = 11 || c.toNat = 12 || c.toNat = 13 ||
  c.toNat = 32 || c.toNat = 160 || c.toNat = 0x1680 ||
  (0x2000 ≤ c.toNat && c.toNat ≤ 0x200A) ||
  c.toNat = 0x2028 || c.toNat = 0x2029 || c.toNat = 0x202F || c.toNat = 0x205F ||
  c.toNat = 0x3000 || c.toNat = 0xFEFF

/-- The value of a string of decimal digits, most significant first. -/
def digitsNat (ds : List Char) : Nat :=
  ds.foldl (fun n c => 10 * n + (c.toNat - '0'.toNat)) 0

/-- The function `parseInt(s, 10)`: leading white space is skipped, one sign is read, then
the longest run of decimal digits; no digit gives `NaN` (`none`). -/
def parseInt10 (s : String) : Option Int :=
  let cs := s.data.dropWhile isJsSpace
  let signed : Bool × List Char :=
    match cs with
    | '-' :: r => (true, r)
    | '+' :: r => (false, r)
    | _ => (false, cs)
  let ds := signed.2.takeWhile Char.isDigit
  if ds.isEmpty then none
  else some (if signed.1 then -(digitsNat ds : Int) else (digitsNat ds : Int))

/-- The requests sent with `fetch` by the embedded functions, with their query
parameters: `/alarmtest/start?duration=`, `/alarmtest/stop`,
`/alarmcfg/set?lead=&led=&buzz=&timeout=`,
`/party/set?on=&music=&effect=&speed=&bri=&mode=&r=&g=&b=` and
`/alarms/add?time=&days=&enabled=1`.  A numeric parameter that may be `NaN` is
an `Option`, with `none` for `NaN`. -/
inductive Request where
  | alarmtestStart (duration : Int)
  | alarmtestStop
  | alarmcfgSet (lead : Int) (led buzz : Bool) (timeout : Int)
  | partySet (partyOn music : Bool) (effect : Nat) (speed bri : Option Int) (mode : String)
      (r g b : Option Int)
  | alarmsAdd (time : String) (days : String)
deriving DecidableEq

/-- The state of the advanced-settings block: the ramp input, the two test
buttons, the progress line of `index_html.h` (its class `active` and the fill
width in tenths of a percent, as written with `toFixed(1)`), the variables `testTimer`,
`testDurMs`, `testStartMs`, the host's active interval handles, the requests
sent so far (oldest first), and the calls of `startTest` suspended at
`await fetch(...)` with their `leadSec`; further the due times of the pending
`setTimeout(() => stopTest(true), 300)` calls, the calls of `stopTest`
suspended at their `await` with their `fromAuto` flag, the timeout input and
the class `active` of the two alarm-type buttons. -/
structure RampTest where
  rampValue : String
  testBtnDisabled : Bool
  stopBtnDisabled : Bool
  progressActive : Bool
  progressWidth : Nat
  testTimer : Option Nat
  testDurMs : Int
  testStartMs : Int
  intervals : List Nat
  nextId : Nat
  requests : List Request
  awaitingStart : List Int
  autoStops : List Int
  awaitingStop : List Bool
  timeoutValue : String
  ledActive : Bool
  buzzActive : Bool
deriving DecidableEq

/-- The function `setProgressActive(active)`: the class `active` is added or removed and the
fill width is set to `0%` in both branches. -/
def setProgressActive (s : RampTest) (active : Bool) : RampTest :=
  { s with progressActive := active, progressWidth := 0 }

/-- The host call `clearInterval(testTimer)`. -/
def clearInterval (intervals : List Nat) (h : Option Nat) : List Nat :=
  match h with
  | none => intervals
  | some id => intervals.filter (fun i => i != id)

/-- The function `startProgress(seconds)` at time `now = Date.now()`: the old interval is
cleared, the duration and start time are recorded, the progress line is
activated and a new 100 ms interval is installed. -/
def startProgress (s : RampTest) (seconds : Int) (now : Int) : RampTest :=
  let s1 : RampTest :=
    { s with
      intervals := clearInterval s.intervals s.testTimer
      testDurMs := seconds * 1000
      testStartMs := now }
  let s2 := setProgressActive s1 true
  { s2 with
    testTimer := some s2.nextId
    intervals := s2.intervals ++ [s2.nextId]
    nextId := s2.nextId + 1 }

/-- The lead time read by `startTest` and `saveAlarmCfg`:
`parseInt(rampInput.value || '0', 10) || 0`.  `parseInt` returns a double; the
value kept here is the integer the digits denote, which is that double up to
`2 ^ 53`. -/
def leadSecOf (rampValue : String) : Int :=
  (parseInt10 (if rampValue.data.isEmpty then "0" else rampValue)).getD 0

/-- The function `startTest()` up to its `await`: the guard `if (leadSec <= 0) return;`, then
the two buttons are switched, the start request is sent and the call suspends
until the response. -/
def startTest (s : RampTest) : RampTest :=
  let leadSec := leadSecOf s.rampValue
  if leadSec ≤ 0 then s
  else
    { s with
      testBtnDisabled := true
      stopBtnDisabled := false
      requests := s.requests ++ [Request.alarmtestStart leadSec]
      awaitingStart := s.awaitingStart ++ [leadSec] }

/-- The rest of `startTest()` when its `fetch` settles at time `now`: on success
`startProgress(leadSec)`, on failure the `catch` block. -/
def startTestSettled (s : RampTest) (ok : Bool) (now : Int) : RampTest :=
  match s.awaitingStart with
  | [] => s
  | leadSec :: rest =>
    let s1 := { s with awaitingStart := rest }
    if ok then startProgress s1 leadSec now
    else setProgressActive { s1 with testBtnDisabled := false, stopBtnDisabled := true } false

/-- The smaller of a double and 1, `Math.min(x, 1)` for `x ≥ 0`. -/
def Frac.min1 (x : Frac) : Frac := if x.den ≤ x.num then ⟨1, 1⟩ else x

/-- The fraction `Math.min(elapsed / testDurMs, 1)` for a non-negative elapsed
time and a positive duration, both in milliseconds. -/
def progressFrac (elapsed durMs : Nat) : Frac :=
  Frac.min1 (jsDiv (Frac.ofNat elapsed) (Frac.ofNat durMs))

/-- The digits of `x.toFixed(1)` for `x ≥ 0`, as a number of tenths: the integer
`n` with `n / 10` nearest to `x`, the larger one on a tie. -/
def toFixed1 (x : Frac) : Nat := (20 * x.num + x.den) / (2 * x.den)

/-- The width written by `progressFill.style.width = (frac * 100).toFixed(1) + '%'`,
in tenths of a percent. -/
def widthOf (frac : Frac) : Nat := toFixed1 (jsMul frac (Frac.ofNat 100))

/-- The body of the 100 ms `setInterval` callback of `startProgress`, with
`Date.now()` as `now`.

* With `testDurMs = 0` the quotient is `Infinity` for a positive elapsed time
  (the fraction is then 1) and `NaN` or `-Infinity` otherwise; the style
  declaration rejects `NaN%` and `-Infinity%`, and `frac >= 1` is false.
* When the quotient is negative the test `frac >= 1` is false and the style
  declaration rejects the negative percentage, unless it rounds to `-0.0%`.
* Otherwise the fraction is `progressFrac` of the two magnitudes; when it
  reaches 1 the interval is cleared and `stopTest(true)` is scheduled 300 ms
  later. -/
def progressTick (s : RampTest) (now : Int) : RampTest :=
  let elapsed := now - s.testStartMs
  let stopNow (s1 : RampTest) : RampTest :=
    { s1 with
      intervals := clearInterval s1.intervals s1.testTimer
      autoStops := s1.autoStops ++ [now + 300] }
  if s.testDurMs = 0 then
    if 0 < elapsed then stopNow { s with progressWidth := 1000 } else s
  else if elapsed = 0 ∨ (0 < elapsed ↔ 0 < s.testDurMs) then
    let frac := progressFrac elapsed.natAbs s.testDurMs.natAbs
    let s1 := { s with progressWidth := widthOf frac }
    if frac.den ≤ frac.num then stopNow s1 else s1
  else
    let w := widthOf (jsDiv (Frac.ofNat elapsed.natAbs) (Frac.ofNat s.testDurMs.natAbs))
    if w = 0 then { s with progressWidth := 0 } else s

/-- The host lets the interval with handle `id` fire at time `now`: its
callback runs only while the interval is active. -/
def intervalFires (s : RampTest) (id : Nat) (now : Int) : RampTest :=
  if id ∈ s.intervals then progressTick s now else s

/-- The function `stopTest(fromAuto)` up to its `await`: the interval is cleared, the stop
request is sent and the call suspends until the response. -/
def stopTest (s : RampTest) (fromAuto : Bool) : RampTest :=
  { s with
    intervals := clearInterval s.intervals s.testTimer
    requests := s.requests ++ [Request.alarmtestStop]
    awaitingStop := s.awaitingStop ++ [fromAuto] }

/-- The rest of `stopTest(fromAuto)` once its `fetch` has settled, run in the
state `s` reached by then; a failure is swallowed by the empty `catch`, so both
outcomes continue alike:
`if (!fromAuto) setProgressActive(false); testBtn.disabled = false; stopBtn.disabled = true;`. -/
def stopTestRest (s : RampTest) (fromAuto : Bool) : RampTest :=
  let s1 := if !fromAuto then setProgressActive s false else s
  { s1 with testBtnDisabled := false, stopBtnDisabled := true }

/-- The oldest suspended call of `stopTest` resumes. -/
def stopTestSettled (s : RampTest) : RampTest :=
  match s.awaitingStop with
  | [] => s
  | fromAuto :: rest => stopTestRest { s with awaitingStop := rest } fromAuto

/-- The pending `setTimeout(() => stopTest(true), 300)` that is due first runs. -/
def autoStopFires (s : RampTest) : RampTest :=
  match s.autoStops with
  | [] => s
  | _ :: rest => stopTest { s with autoStops := rest } true

/-- The function `saveAlarmCfg()`: the lead time is read as in `startTest`, the timeout in
minutes is read the same way and clamped to `1..120`, and one
`/alarmcfg/set` request carries the lead, the two flags and the timeout in
seconds. -/
def saveAlarmCfg (s : RampTest) : RampTest :=
  let leadSec := leadSecOf s.rampValue
  let timeoutMin0 := leadSecOf s.timeoutValue
  let timeoutMin1 := if timeoutMin0 < 1 then 1 else timeoutMin0
  let timeoutMin := if timeoutMin1 > 120 then 120 else timeoutMin1
  { s with
    requests := s.requests ++
      [Request.alarmcfgSet leadSec s.ledActive s.buzzActive (timeoutMin * 60)] }

/-- The events of the wake-ramp test: a click on `testRampBtn`, the settling of
the oldest pending `/alarmtest/start` request (`ok = false`: the `fetch`
rejected), a firing of the interval with handle `id`, the firing of the oldest
pending `setTimeout(() => stopTest(true), 300)`, a click on `stopTestBtn`, and
the settling of the oldest pending `/alarmtest/stop` request. -/
inductive RampEvent where
  | startClick
  | startResponse (ok : Bool)
  | tick (id : Nat)
  | autoStopTimeout
  | stopClick
  | stopResponse
deriving DecidableEq

/-- Whether the host can deliver the event at time `now`: a click needs a button
that is not disabled, a response a suspended call, a tick an active interval,
and the timeout a pending `setTimeout` that is due. -/
def RampEvent.enabled (s : RampTest) (now : Int) : RampEvent → Bool
  | RampEvent.startClick => !s.testBtnDisabled
  | RampEvent.startResponse _ => !s.awaitingStart.isEmpty
  | RampEvent.tick id => decide (id ∈ s.intervals)
  | RampEvent.autoStopTimeout =>
    match s.autoStops with
    | [] => false
    | due :: _ => decide (due ≤ now)
  | RampEvent.stopClick => !s.stopBtnDisabled
  | RampEvent.stopResponse => !s.awaitingStop.isEmpty

/-- The handler the host runs for an event at time `now`. -/
def rampStep (s : RampTest) (now : Int) : RampEvent → RampTest
  | RampEvent.startClick => startTest s
  | RampEvent.startResponse ok => startTestSettled s ok now
  | RampEvent.tick id => intervalFires s id now
  | RampEvent.autoStopTimeout => autoStopFires s
  | RampEvent.stopClick => stopTest s false
  | RampEvent.stopResponse => stopTestSettled s

/-- The state after a list of timed events, from state `s` at time `last`;
`none` when a time lies before the preceding one or an event cannot be
delivered. -/
def rampRun (s : RampTest) (last : Int) : List (Int × RampEvent) → Option RampTest
  | [] => some s
  | (t, e) :: rest =>
    if last ≤ t ∧ e.enabled s t = true then rampRun (rampStep s t e) t rest else none

/-- The advanced-settings block as `index_html.h` loads it, with `ramp` in the
ramp input: `Test Ramp` enabled, `Stop Test` disabled, no timer, nothing sent. -/
def initialRampTest (ramp : String) : RampTest :=
  { rampValue := ramp, testBtnDisabled := false, stopBtnDisabled := true,
    progressActive := false, progressWidth := 0, testTimer := none, testDurMs := 0,
    testStartMs := 0, intervals := [], nextId := 1, requests := [], awaitingStart := [],
    autoStops := [], awaitingStop := [], timeoutValue := "10", ledActive := true,
    buzzActive := false }

/-! ## Alarm time inputs and the add request (`script_js.h`, lines 237-250, 354-375) -/

/-- Value of a hexadecimal digit of either case, `none` for any other character. -/
def hexDigitVal (c : Char) : Option Nat :=
  if c.isDigit then some (c.toNat - 48)
  else if 97 ≤ c.toNat ∧ c.toNat ≤ 102 then some (c.toNat - 87)
  else if 65 ≤ c.toNat ∧ c.toNat ≤ 70 then some (c.toNat - 55)
  else none

/-- The value of a string of hexadecimal digits, most significant first. -/
def hexDigitsNat (ds : List Char) : Nat :=
  ds.foldl (fun n c => 16 * n + (hexDigitVal c).getD 0) 0

/-- The function `parseInt(s)` (`hexDefault = false`) and `parseInt(s, 16)`
(`hexDefault = true`): leading white space is skipped, one sign is read, a
prefix `0x` or `0X` is removed and selects radix 16, then the longest run of
digits of the radix is read; no digit gives `NaN` (`none`). -/
def parseIntRadix (hexDefault : Bool) (cs0 : List Char) : Option Int :=
  let cs := cs0.dropWhile isJsSpace
  let signed : Bool × List Char :=
    match cs with
    | '-' :: r => (true, r)
    | '+' :: r => (false, r)
    | _ => (false, cs)
  let body : Bool × List Char :=
    match signed.2 with
    | '0' :: 'x' :: r => (true, r)
    | '0' :: 'X' :: r => (true, r)
    | r => (hexDefault, r)
  let magnitude : Option Nat :=
    if body.1 then
      let ds := body.2.takeWhile (fun c => (hexDigitVal c).isSome)
      if ds.isEmpty then none else some (hexDigitsNat ds)
    else
      let ds := body.2.takeWhile Char.isDigit
      if ds.isEmpty then none else some (digitsNat ds)
  magnitude.map (fun v => if signed.1 then -(v : Int) else (v : Int))

/-- The string method `padStart(2, '0')` on the characters of a string. -/
def padStart2 (cs : List Char) : List Char :=
  List.replicate (2 - cs.length) '0' ++ cs

/-- The text `v.toString().padStart(2,'0')` written back to a time field. -/
def fieldText (v : Int) : String := String.mk (padStart2 (toString v).data)

/-- The value `parseInt(input.value)||0` read by the three handlers, as the
integer the digits denote (the double returned by `parseInt` up to `2 ^ 53`;
beyond, both lie above every bound the handlers compare with). -/
def readField (value : String) : Int := (parseIntRadix false value.data).getD 0

/-- The `input` handler of `formatTimeInput(input, min, max)` on the field
content `value`: the number is clamped to `min..max` and written back. -/
def onInput (value : String) (min max : Int) : String :=
  let v0 := readField value
  let v1 := if v0 > max then max else v0
  let v2 := if v1 < min then min else v1
  fieldText v2

/-- The `wheel` handler: one step up (`deltaY < 0`) or down, wrapping around. -/
def onWheel (value : String) (min max : Int) (up : Bool) : String :=
  let v0 := readField value
  let v1 := if up then v0 + 1 else v0 - 1
  let v2 := if v1 > max then min else v1
  let v3 := if v2 < min then max else v2
  fieldText v3

/-- The keys the `keydown` handler distinguishes. -/
inductive Key where
  | arrowUp
  | arrowDown
  | other
deriving DecidableEq

/-- The `keydown` handler: the arrow keys step with wrap-around, any other key
leaves the field to the `input` handler. -/
def onKeydown (value : String) (min max : Int) (key : Key) : String :=
  let v := readField value
  match key with
  | Key.arrowUp => fieldText (if v + 1 > max then min else v + 1)
  | Key.arrowDown => fieldText (if v - 1 < min then max else v - 1)
  | Key.other => value

/-- What can happen to a time field: the user changes its content to `text`
(an `input` event), turns the wheel, or presses a key. -/
inductive FieldEvent where
  | typed (text : String)
  | wheel (up : Bool)
  | key (k : Key)

/-- The field content after one event. -/
def fieldStep (min max : Int) (value : String) : FieldEvent → String
  | FieldEvent.typed text => onInput text min max
  | FieldEvent.wheel up => onWheel value min max up
  | FieldEvent.key k => onKeydown value min max k

/-- The request of the `addAlarm` click handler:
`/alarms/add?time=${h}:${m}&days=...&enabled=1` with
`h = hourInput.value.padStart(2,'0')` and `m` likewise. -/
def addAlarmRequest (hourValue minuteValue : String) (active : Fin 7 → Bool) : Request :=
  Request.alarmsAdd
    (String.mk (padStart2 hourValue.data ++ ':' :: padStart2 minuteValue.data))
    (dayLettersFromRow active)

/-! ## Next-alarm readout (`script_js.h`, lines 341-352) -/

/-- The two texts of the next-alarm card and the two style properties
`updateNextAlarm` sets on `nextTime`. -/
structure NextAlarmView where
  nextTime : String
  timeRemaining : String
  color : String
  fontWeight : String
deriving DecidableEq

/-- The function `updateNextAlarm(alarms)` after its call of `computeNextAlarm`: `r` is the
result `{ nextAlarm, minDiff }`.  `Math.floor(minDiff/60)` is the integer
division `/` and `minDiff % 60` the truncating remainder `Int.tmod`; with
`minDiff = Infinity` the two numbers print as `Infinity` and `NaN`. -/
def updateNextAlarm (r : NextAlarm) : NextAlarmView :=
  match r.nextAlarm with
  | none => ⟨"--:--", "No upcoming alarms", "#999", "400"⟩
  | some alarm =>
    let text : String :=
      match r.minDiff with
      | none => "In Infinityh NaNm"
      | some d =>
        let h := d / 60
        let m := d.tmod 60
        if h > 0 then "In " ++ toString h ++ "h " ++ toString m ++ "m"
        else "In " ++ toString m ++ "m"
    ⟨alarm.time, text, "#007bff", "700"⟩

/-! ## Color conversions (`script_js.h`, lines 5-6) -/

/-- The text `n.toString(16).padStart(2,'0')`. -/
def hexOf (n : Nat) : List Char := padStart2 (Nat.toDigits 16 n)

/-- The function `rgbToHex(r,g,b)` for non-negative integers. -/
def rgbToHex (r g b : Nat) : String :=
  String.mk (('#' :: (hexOf r ++ hexOf g ++ hexOf b)).map Char.toUpper)

/-- The string method `replace('#','')`: the first `#` is removed. -/
def removeFirstHash : List Char → List Char
  | [] => []
  | c :: cs => if c = '#' then cs else c :: removeFirstHash cs

/-- The object `{r, g, b}` returned by `hexToRgb`; a component may be `NaN`. -/
structure RgbParts where
  r : Option Int
  g : Option Int
  b : Option Int
deriving DecidableEq

/-- The function `hexToRgb(hex)`: `parseInt(v.substr(k,2),16)` for `k = 0, 2, 4` on
`v = hex.replace('#','')`. -/
def hexToRgb (hex : String) : RgbParts :=
  let v := removeFirstHash hex.data
  ⟨parseIntRadix true (v.take 2), parseIntRadix true ((v.drop 2).take 2),
    parseIntRadix true ((v.drop 4).take 2)⟩

/-! ## Status reconciliation (`script_js.h`, lines 112-149) -/

/-- The JavaScript `a + b` on doubles. -/
def jsAdd (a b : Frac) : Frac := binary64 ⟨a.num * b.den + b.num * a.den, a.den * b.den⟩

/-- The member `rgb` of a `/status` snapshot.  A component is a non-negative
integer, or `none` when it is missing (`undefined`); other JSON types are not
part of the embedding. -/
structure RgbJson where
  r : Option Nat
  g : Option Nat
  b : Option Nat
  bri : Option Nat
deriving DecidableEq

/-- A parsed `/status` snapshot, as far as `fetchStatus` reads it: `epoch` is
`none` unless `typeof js.epoch === 'number'`, `rgb` is `none` when the member
is missing, `hp` is `none` when it is missing. -/
structure StatusJson where
  epoch : Option Int
  defaultSaved : Bool
  rgb : Option RgbJson
  hp : Option Nat
deriving DecidableEq

/-- What the lamp page of `index_html.h` shows and `fetchStatus` writes: the
clock sample, the "Set back to default" button, the string written to
`colorPicker.value` (the control keeps it in lower case), the background of
`lampCircle`, the text of `lampColor`, the number written to
`brightnessSlider.value` (`none` is `NaN`, which the range control replaces by
its default position), the text of `lampBrightness`, the opacity of
`lampCircle`, and the number written to `hpLEDSlider.value`. -/
structure LampView where
  clock : Clock
  applyDefaultDisabled : Bool
  applyDefaultTitle : String
  colorPicker : String
  lampCircleColor : String
  lampColorText : String
  brightnessSlider : Option Nat
  brightnessText : String
  lampOpacity : Frac
  hpLEDSlider : Option Nat
deriving DecidableEq

/-- The text of the template `${pct}%`; `NaN` prints as `NaN`. -/
def percentText (pct : Option Nat) : String :=
  match pct with
  | none => "NaN%"
  | some n => toString n ++ "%"

/-- The opacity `0.3 + (pct/100)*0.7` in double arithmetic. -/
def opacityOf (pct : Nat) : Frac :=
  jsAdd (binary64 ⟨3, 10⟩) (jsMul (jsDiv (Frac.ofNat pct) (Frac.ofNat 100)) (binary64 ⟨7, 10⟩))

/-- The function `fetchStatus()` at time `now`, on the response `resp` (`none`: the request
failed or its body is not JSON, and the `catch` swallows the error).

The statements run in source order.  `rgbToHex(js.rgb.r, js.rgb.g, js.rgb.b)`
throws a `TypeError` when `rgb` or one of its three components is missing, and
the `catch` then skips the rest of the function.  `Math.round(x/2.55)` is `NaN`
for a missing `x`; `NaN` is written to the slider and to the text, and the
style declaration rejects it as an opacity. -/
def fetchStatus (v : LampView) (resp : Option StatusJson) (now : Int) : LampView :=
  match resp with
  | none => v
  | some js =>
    let v1 : LampView :=
      match js.epoch with
      | some epoch => { v with clock := setSample v.clock epoch now }
      | none => v
    let v2 : LampView :=
      { v1 with
        applyDefaultDisabled := !js.defaultSaved
        applyDefaultTitle := if js.defaultSaved then "" else "No default saved yet" }
    match js.rgb with
    | none => v2
    | some rgb =>
      match rgb.r, rgb.g, rgb.b with
      | some r, some g, some b =>
        let hex := rgbToHex r g b
        let v3 : LampView :=
          { v2 with colorPicker := hex, lampCircleColor := hex, lampColorText := hex }
        let rgbPct := rgb.bri.map toPercent
        let v4 : LampView :=
          { v3 with
            brightnessSlider := rgbPct
            brightnessText := percentText rgbPct
            lampOpacity :=
              match rgbPct with
              | some pct => opacityOf pct
              | none => v3.lampOpacity }
        { v4 with hpLEDSlider := js.hp.map toPercent }
      | _, _, _ => v2

/-- The value an `input type="color"` holds after the string `written` was
assigned to `value`: a `#` followed by six hexadecimal digits is kept, in lower
case, and any other string is replaced by `#000000`. -/
def colorValue (written : String) : String :=
  match written.data with
  | '#' :: ds =>
    if ds.length = 6 ∧ ds.all (fun c => (hexDigitVal c).isSome) = true then
      String.mk ('#' :: ds.map Char.toLower)
    else "#000000"
  | _ => "#000000"

/-- The number the range control `brightness` (`min="0" max="100"`) holds after
`written` was assigned to `value`: a number above 100 is clamped, and `NaN`
gives the default position 50. -/
def sliderValue (written : Option Nat) : Nat :=
  match written with
  | some n => min n 100
  | none => 50

/-- The query of `sendRGB()`: `/setrgb?r=&g=&b=&bri=`. -/
structure SetRgb where
  r : Option Int
  g : Option Int
  b : Option Int
  bri : Nat
deriving DecidableEq

/-- The function `sendRGB()`: the components of `hexToRgb(colorPicker.value)`
and the raw level of the slider position. -/
def sendRGB (v : LampView) : SetRgb :=
  let c := hexToRgb (colorValue v.colorPicker)
  ⟨c.r, c.g, c.b, toRaw (sliderValue v.brightnessSlider)⟩

/-! ## Party configuration (`script_js.h`, lines 381-545) -/

/-- The object `partyState`; `speed` and `bri` are results of `parseInt` and
may be `NaN` (`none`). -/
structure PartyState where
  partyOn : Bool
  music : Bool
  effect : Nat
  speed : Option Int
  bri : Option Int
  mode : String
  color : String
deriving DecidableEq

/-- The request built by `sendPartyConfig()` from the current `partyState`. -/
def sendPartyConfig (st : PartyState) : Request :=
  let rgb := hexToRgb st.color
  Request.partySet st.partyOn st.music st.effect st.speed st.bri st.mode rgb.r rgb.g rgb.b

/-- The events with a party handler: the two switches with their new `checked`
state, an effect button with its index, the two sliders with their `value`,
a color-mode radio with its `value` and `checked` state, and the single-color
picker with its `value`. -/
inductive PartyEdit where
  | switch (checked : Bool)
  | musicSwitch (checked : Bool)
  | effect (idx : Nat)
  | speed (value : String)
  | brightness (value : String)
  | colorMode (value : String) (checked : Bool)
  | singleColor (value : String)
deriving DecidableEq

/-- The party handlers: the new `partyState` and the requests the handler sends
by calling `sendPartyConfig()` (the radio handler returns early when its input
is not checked). -/
def partyEdit (st : PartyState) : PartyEdit → PartyState × List Request
  | PartyEdit.switch checked =>
    let st1 := { st with partyOn := checked }
    (st1, [sendPartyConfig st1])
  | PartyEdit.musicSwitch checked =>
    let st1 := { st with music := checked }
    (st1, [sendPartyConfig st1])
  | PartyEdit.effect idx =>
    let st1 := { st with effect := idx }
    (st1, [sendPartyConfig st1])
  | PartyEdit.speed value =>
    let st1 := { st with speed := parseInt10 (if value.data.isEmpty then "50" else value) }
    (st1, [sendPartyConfig st1])
  | PartyEdit.brightness value =>
    let st1 := { st with bri := parseInt10 (if value.data.isEmpty then "80" else value) }
    (st1, [sendPartyConfig st1])
  | PartyEdit.colorMode value checked =>
    if !checked then (st, [])
    else
      let st1 := { st with mode := value }
      (st1, [sendPartyConfig st1])
  | PartyEdit.singleColor value =>
    let st1 := { st with color := if value.data.isEmpty then "#ff0000" else value }
    (st1, [sendPartyConfig st1])

/-- A sequence of party events, each with the time at which it happens: the
final `partyState` and all requests sent, oldest first.  The handlers call
`sendPartyConfig()` directly, so the times play no part. -/
def partyRun (st : PartyState) (edits : List (Int × PartyEdit)) : PartyState × List Request :=
  edits.foldl
    (fun acc e => ((partyEdit acc.1 e.2).1, acc.2 ++ (partyEdit acc.1 e.2).2))
    (st, [])

/-! ## Alarm list page (`script_js.h`, lines 252-309, 377-378) -/

/-- The outcome of `fetch('/alarms/list')` and `resp.json()`: a failure of
either, or the parsed body with its member `alarms` (`none` when missing). -/
inductive AlarmsResponse where
  | failed
  | json (alarms : Option (List Alarm))

/-- The function `fetchAlarms()`: `js.alarms || []`, and `[]` from the `catch`. -/
def fetchAlarms : AlarmsResponse → List Alarm
  | AlarmsResponse.failed => []
  | AlarmsResponse.json none => []
  | AlarmsResponse.json (some alarms) => alarms

/-- Order of two strings by code points, the first difference deciding; on
well-formed `HH:MM` times this is the order `localeCompare` gives. -/
def lexLe : List Char → List Char → Bool
  | [], _ => true
  | _ :: _, [] => false
  | a :: as, b :: bs =>
    if a.toNat < b.toNat then true
    else if b.toNat < a.toNat then false
    else lexLe as bs

/-- What the alarms page shows: the alarm items of `alarmList` in order (the
empty list stands for the paragraph "No alarms have been set yet.") and the
next-alarm card. -/
structure AlarmsPage where
  listed : List Alarm
  next : NextAlarmView
deriving DecidableEq

/-- The function `renderAlarms()` on the response to its list request, at weekday
`currentDay` and minute `currentTime`: the list is emptied; an empty result
shows the placeholder, otherwise the alarms are sorted by time and shown; in
both cases `updateNextAlarm(alarms)` follows. -/
def renderAlarms (_p : AlarmsPage) (resp : AlarmsResponse) (currentDay : Fin 7)
    (currentTime : Nat) : AlarmsPage :=
  let alarms := fetchAlarms resp
  if alarms.isEmpty then
    ⟨[], updateNextAlarm (computeNextAlarm alarms currentDay currentTime)⟩
  else
    let sorted := alarms.insertionSort (fun a b => lexLe a.time.data b.time.data = true)
    ⟨sorted, updateNextAlarm (computeNextAlarm sorted currentDay currentTime)⟩

/-- The 60-second refresh `updateNextAlarm(await fetchAlarms())`. -/
def refreshNextAlarm (p : AlarmsPage) (resp : AlarmsResponse) (currentDay : Fin 7)
    (currentTime : Nat) : AlarmsPage :=
  { p with next := updateNextAlarm (computeNextAlarm (fetchAlarms resp) currentDay currentTime) }

/-! ## Invariants used by the theorems -/

/-- The lamp page as `index_html.h` loads it, before any snapshot: color
`#abcdef`, brightness 80 %, white level 60 %. -/
def sampleLampView : LampView :=
  { clock := Clock.init, applyDefaultDisabled := false, applyDefaultTitle := "",
    colorPicker := "#abcdef", lampCircleColor := "#abcdef", lampColorText := "#ABCDEF",
    brightnessSlider := some 80, brightnessText := "80%", lampOpacity := ⟨86, 100⟩,
    hpLEDSlider := some 60 }

/-- The alarms page showing one every-day alarm at 08:00, one hour ahead. -/
def sampleAlarmsPage : AlarmsPage :=
  ⟨[⟨1, "08:00", "", true⟩], ⟨"08:00", "In 1h 0m", "#007bff", "700"⟩⟩

/-- The party state the script starts with on `index_html.h`. -/
def samplePartyState : PartyState :=
  { partyOn := false, music := false, effect := 0, speed := some 50, bri := some 80,
    mode := "rgb", color := "#ff0000" }

/-- Whether the handler of a party event calls `sendPartyConfig()`: all do,
except the radio handler on an input that is not checked. -/
def PartyEdit.sends : PartyEdit → Bool
  | PartyEdit.colorMode _ checked => checked
  | _ => true

/-- The rational number a `Frac` stands for. -/
def Frac.toRat (x : Frac) : ℚ := (x.num : ℚ) / (x.den : ℚ)

/-- The exponent `e` that `binary64` gives the last bit of the rounding of
`n / d`. -/
def expo (n d : Nat) : Int := floorLog2 n d - 52

/-- The 53-bit integer `m` that `binary64` rounds `n / d` to, in units of
`2 ^ expo n d`. -/
def mant (n d : Nat) : Nat :=
  roundHalfEven (n * 2 ^ (-(expo n d)).toNat) (d * 2 ^ (expo n d).toNat)

/-- A test is running: the interval `id` held in `testTimer` is active, the
duration and start time are `dur` and `t0`, and the pending automatic stops are
`stops`. -/
def Ticking (s : RampTest) (id : Nat) (dur t0 : Int) (stops : List Int) : Prop :=
  s.testTimer = some id ∧ id ∈ s.intervals ∧ s.testDurMs = dur ∧ s.testStartMs = t0 ∧
    s.autoStops = stops

/-- The test has ended at the tick of time `t`: the interval `id` is no longer
active, the bar is full, and one automatic stop, due at `t + 300`, has been
added to `stops`. -/
def Ended (s : RampTest) (id : Nat) (t : Int) (stops : List Int) : Prop :=
  id ∉ s.intervals ∧ s.progressWidth = 1000 ∧ s.autoStops = stops ++ [t + 300]

/-- The two decimal digits of a number below 100, with a leading zero. -/
def twoDigits (n : Nat) : String :=
  String.mk [Nat.digitChar (n / 10), Nat.digitChar (n % 10)]

/-- The clock state agrees with the sample `(e0, s0)`: a sample is present,
`lastSyncMs` has moved from `s0` by exactly 1000 ms per second added to the
epoch, and the time `p` of the latest tick (or of the sample) lies less than
one second after `lastSyncMs`. -/
def ClockInv (e0 s0 : Int) (c : Clock) (p : Int) : Prop :=
  ∃ e, c.deviceEpoch = some e ∧ c.lastSyncMs - s0 = 1000 * (e - e0) ∧
    c.lastSyncMs ≤ p ∧ p < c.lastSyncMs + 1000

/-- A controller state with the ramp input set to `-5` while a test is shown as
running. -/
def sampleRampTest : RampTest :=
  { rampValue := "-5", testBtnDisabled := true, stopBtnDisabled := false,
    progressActive := true, progressWidth := 250, testTimer := some 3,
    testDurMs := 10000, testStartMs := 5000, intervals := [3], nextId := 4,
    requests := [Request.alarmtestStart 10], awaitingStart := [], autoStops := [],
    awaitingStop := [], timeoutValue := "10", ledActive := true, buzzActive := false }

/-- A stop has completed: `Test Ramp` is enabled, `Stop Test` is disabled and no
call of `startTest` or `stopTest` is suspended. -/
def Stopped (s : RampTest) : Prop :=
  s.testBtnDisabled = false ∧ s.stopBtnDisabled = true ∧ s.awaitingStart = [] ∧
    s.awaitingStop = []

/-- `Stop Test` is clicked 50 ms after `Test Ramp`, before the start request is
answered at 80 ms; the stop request is answered at 120 ms. -/
def earlyStopEvents : List (Int × RampEvent) :=
  [(0, RampEvent.startClick), (50, RampEvent.stopClick),
    (80, RampEvent.startResponse true), (120, RampEvent.stopResponse)]

/-- A 10 s test runs to its end at 10010 ms, which schedules the automatic stop
for 10310 ms; the user stops it by hand at 10050 ms and starts a second test at
10100 ms, which is running when the timeout fires. -/
def secondTestEvents : List (Int × RampEvent) :=
  [(0, RampEvent.startClick), (10, RampEvent.startResponse true), (10010, RampEvent.tick 1),
    (10050, RampEvent.stopClick), (10060, RampEvent.stopResponse),
    (10100, RampEvent.startClick), (10110, RampEvent.startResponse true),
    (10210, RampEvent.tick 2)]

/-- The 22 hexadecimal digits, in either case. -/
def hexChars : List Char := "0123456789abcdefABCDEF".data

/-- An upper-case hexadecimal digit: `0..9` or `A..F`. -/
def isUpperHex (c : Char) : Bool :=
  c.isDigit || (65 ≤ c.toNat && c.toNat ≤ 70)

/-- The upper-case text of one byte in `rgbToHex`. -/
def upperHexOf (n : Nat) : List Char := (hexOf n).map Char.toUpper

/-! ## Theorems: next-alarm resolver -/

theorem firstForward_bounds {days : String} {cd : Fin 7} {i : Nat}
    (h : firstForward days cd = some i) :
    1 ≤ i ∧ i ≤ 7 ∧ dayEnabled days (dayAfter cd i) = true ∧
      ∀ j, 1 ≤ j → j < i → dayEnabled days (dayAfter cd j) = false := by
  unfold firstForward at h
  have hmem := List.mem_of_find?_eq_some h
  have hp := List.find?_some h
  simp only [List.mem_cons, List.mem_singleton, List.not_mem_nil, or_false] at hmem
  refine ⟨by omega, by omega, hp, ?_⟩
  intro j hj1 hji
  simp only [List.find?_cons] at h
  rcases hmem with rfl | rfl | rfl | rfl | rfl | rfl | rfl <;>
    interval_cases j <;> (repeat' (split at h)) <;> simp_all

theorem visitAlarm_eq_updateWith (cd : Fin 7) (ct : Nat) (acc : NextAlarm) (a : Alarm) :
    visitAlarm cd ct acc a = updateWith acc a (candidateDiff cd ct a) := by
  unfold visitAlarm candidateDiff
  cases hen : a.enabled
  · simp [updateWith]
  · simp only [Bool.not_true, Bool.false_eq_true, if_false]
    cases ht : alarmTime a.time with
    | none => simp [updateWith]
    | some t =>
      simp only []
      cases hff : firstForward a.days cd with
      | none =>
        have h7 : dayEnabled a.days cd = false := by
          cases hd : dayEnabled a.days cd with
          | false => rfl
          | true =>
            exfalso
            have hd7 : dayEnabled a.days (dayAfter cd 7) = true := by
              have : dayAfter cd 7 = cd := by
                apply Fin.ext
                simp only [dayAfter]
                omega
              rw [this]; exact hd
            unfold firstForward at hff
            rw [List.find?_eq_none] at hff
            have := hff 7 (by simp)
            simp [hd7] at this
        simp [h7, updateWith]
      | some i =>
        obtain ⟨hi1, -, -, -⟩ := firstForward_bounds hff
        cases hd : dayEnabled a.days cd with
        | false => simp [updateWith]
        | true =>
          by_cases hlt : ct < t
          · have hpos : (0 : Int) < (t : Int) - (ct : Int) := by omega
            simp only [if_true, hlt, decide_True, Bool.and_self, updateWith, hpos,
              Bool.true_and]
            cases hm : acc.minDiff with
            | none =>
              simp only [ltMinDiff, if_true]
              have : ¬ ((t : Int) + 24 * 60 * (i : Int) - (ct : Int) < (t : Int) - (ct : Int)) := by
                omega
              simp [this]
            | some m =>
              simp only [ltMinDiff]
              by_cases hdm : (t : Int) - (ct : Int) < m
              · have : ¬ ((t : Int) + 24 * 60 * (i : Int) - (ct : Int) < (t : Int) - (ct : Int)) := by
                  omega
                simp [hdm, this]
              · have : ¬ ((t : Int) + 1440 * (i : Int) - (ct : Int) < m) := by omega
                simp [hdm, this, hm]
          · have hpos : ¬ ((0 : Int) < (t : Int) - (ct : Int)) := by omega
            simp [hlt, hpos, updateWith]

theorem firstMin_step (cd : Fin 7) (ct : Nat) (pre : List Alarm) (acc : NextAlarm) (x : Alarm)
    (h : FirstMin cd ct pre acc) :
    FirstMin cd ct (pre ++ [x]) (updateWith acc x (candidateDiff cd ct x)) := by
  cases hx : candidateDiff cd ct x with
  | none =>
    simp only [updateWith]
    rcases h with ⟨rfl, hnone⟩ | ⟨a, m, rfl, hmin, hfind⟩
    · left
      refine ⟨rfl, ?_⟩
      intro b hb
      rcases List.mem_append.mp hb with hb | hb
      · exact hnone b hb
      · simp only [List.mem_singleton] at hb
        subst hb; exact hx
    · right
      refine ⟨a, m, rfl, ?_, ?_⟩
      · intro b hb d hd
        rcases List.mem_append.mp hb with hb | hb
        · exact hmin b hb d hd
        · simp only [List.mem_singleton] at hb
          subst hb; rw [hx] at hd; cases hd
      · rw [List.find?_append, hfind]; rfl
  | some d =>
    simp only [updateWith]
    rcases h with ⟨rfl, hnone⟩ | ⟨a, m, rfl, hmin, hfind⟩
    · right
      refine ⟨x, d, by simp [ltMinDiff], ?_, ?_⟩
      · intro b hb e he
        rcases List.mem_append.mp hb with hb | hb
        · rw [hnone b hb] at he; cases he
        · simp only [List.mem_singleton] at hb
          subst hb; rw [hx] at he; cases he; exact le_refl _
      · have hpre : pre.find? (fun b => candidateDiff cd ct b == some d) = none := by
          rw [List.find?_eq_none]
          intro b hb
          simp [hnone b hb]
        rw [List.find?_append, hpre]
        simp [hx]
    · by_cases hdm : d < m
      · right
        refine ⟨x, d, by simp [ltMinDiff, hdm], ?_, ?_⟩
        · intro b hb e he
          rcases List.mem_append.mp hb with hb | hb
          · have := hmin b hb e he
            omega
          · simp only [List.mem_singleton] at hb
            subst hb; rw [hx] at he; cases he; exact le_refl _
        · have hpre : pre.find? (fun b => candidateDiff cd ct b == some d) = none := by
            rw [List.find?_eq_none]
            intro b hb
            cases hb' : candidateDiff cd ct b with
            | none => simp
            | some e =>
              have := hmin b hb e hb'
              have hne : e ≠ d := by omega
              simp [hne]
          rw [List.find?_append, hpre]
          simp [hx]
      · right
        refine ⟨a, m, by simp [ltMinDiff, hdm], ?_, ?_⟩
        · intro b hb e he
          rcases List.mem_append.mp hb with hb | hb
          · exact hmin b hb e he
          · simp only [List.mem_singleton] at hb
            subst hb; rw [hx] at he; cases he; omega
        · rw [List.find?_append, hfind]; rfl

theorem firstMin_foldl (cd : Fin 7) (ct : Nat) (l pre : List Alarm) (acc : NextAlarm)
    (h : FirstMin cd ct pre acc) :
    FirstMin cd ct (pre ++ l) (l.foldl (visitAlarm cd ct) acc) := by
  induction l generalizing pre acc with
  | nil => simpa using h
  | cons x xs ih =>
    have hstep := firstMin_step cd ct pre acc x h
    rw [← visitAlarm_eq_updateWith] at hstep
    have := ih (pre ++ [x]) _ hstep
    simpa using this

theorem firstMin_computeNextAlarm (alarms : List Alarm) (cd : Fin 7) (ct : Nat) :
    FirstMin cd ct alarms (computeNextAlarm alarms cd ct) := by
  have := firstMin_foldl cd ct alarms [] ⟨none, none⟩ (Or.inl ⟨rfl, by simp⟩)
  simpa [computeNextAlarm] using this

theorem foldl_visitAlarm_filter (cd : Fin 7) (ct : Nat) (l : List Alarm) (acc : NextAlarm) :
    (l.filter (fun a => a.enabled)).foldl (visitAlarm cd ct) acc =
      l.foldl (visitAlarm cd ct) acc := by
  induction l generalizing acc with
  | nil => rfl
  | cons x xs ih =>
    cases hx : x.enabled with
    | true => simp [List.filter_cons, hx, ih]
    | false =>
      have hv : visitAlarm cd ct acc x = acc := by simp [visitAlarm, hx]
      simp [List.filter_cons, hx, ih, hv]

theorem isDigit_ne_colon {c : Char} (h : c.isDigit = true) : c ≠ ':' := by
  rintro rfl
  exact absurd h (by decide)

theorem alarmTime_of_wellFormed {time : String} (h : WellFormedTime time) :
    ∃ t, alarmTime time = some t ∧ t < 1440 := by
  obtain ⟨a, b, c, d, hdata, ha, hb, hc, hd, hh, hm⟩ := h
  refine ⟨(10 * (a.toNat - 48) + (b.toNat - 48)) * 60 +
    (10 * (c.toNat - 48) + (d.toNat - 48)), ?_, by omega⟩
  have h48 : '0'.toNat = 48 := by decide
  simp [alarmTime, hdata, splitColon, isDigit_ne_colon ha, isDigit_ne_colon hb,
    isDigit_ne_colon hc, isDigit_ne_colon hd, jsNumber, digitsVal, digitVal, ha, hb, hc, hd, h48]

theorem wellFormed_sampleAlarms : ∀ a ∈ sampleAlarms, WellFormedTime a.time := by
  intro a ha
  simp only [sampleAlarms, List.mem_cons, List.mem_singleton, List.not_mem_nil, or_false] at ha
  rcases ha with rfl | rfl | rfl
  · exact ⟨'0', '8', '0', '0', rfl, by decide, by decide, by decide, by decide, by decide,
      by decide⟩
  · exact ⟨'0', '7', '3', '0', rfl, by decide, by decide, by decide, by decide, by decide,
      by decide⟩
  · exact ⟨'0', '8', '0', '0', rfl, by decide, by decide, by decide, by decide, by decide,
      by decide⟩

/-- C1: for alarm lists with well-formed `HH:MM` times, every weekday and every
minute of the day, `computeNextAlarm` ignores disabled alarms (filtering them
out leaves the result unchanged), returns nothing when no enabled alarm has a
candidate, and otherwise returns as `minDiff` the least candidate difference `m`
and as `nextAlarm` the first alarm in list order whose candidate equals `m`;
that difference is positive. -/
theorem computeNextAlarm_first_minimal (alarms : List Alarm) (cd : Fin 7) (ct : Nat)
    (hwf : ∀ a ∈ alarms, WellFormedTime a.time) (hct : ct < 1440) :
    computeNextAlarm (alarms.filter (fun a => a.enabled)) cd ct = computeNextAlarm alarms cd ct ∧
    ((∀ a ∈ alarms, candidateDiff cd ct a = none) →
      computeNextAlarm alarms cd ct = ⟨none, none⟩) ∧
    (∀ m : Int, (∃ a ∈ alarms, candidateDiff cd ct a = some m) →
      (∀ b ∈ alarms, ∀ d, candidateDiff cd ct b = some d → m ≤ d) →
      computeNextAlarm alarms cd ct =
          ⟨alarms.find? (fun b => candidateDiff cd ct b == some m), some m⟩ ∧
        (alarms.find? (fun b => candidateDiff cd ct b == some m)).isSome = true ∧ 0 < m) := by
  refine ⟨foldl_visitAlarm_filter cd ct alarms _, ?_, ?_⟩
  · intro hnone
    rcases firstMin_computeNextAlarm alarms cd ct with ⟨h, -⟩ | ⟨a, m, -, -, hfind⟩
    · exact h
    · have hmem := List.mem_of_find?_eq_some hfind
      have hp := List.find?_some hfind
      simp [hnone a hmem] at hp
  · rintro m ⟨a0, ha0, hc0⟩ hmin
    have hpos : 0 < m := by
      obtain ⟨t, ht, -⟩ := alarmTime_of_wellFormed (hwf a0 ha0)
      unfold candidateDiff at hc0
      rw [ht] at hc0
      cases hen : a0.enabled with
      | false => simp [hen] at hc0
      | true =>
        simp only [hen, Bool.not_true, Bool.false_eq_true, if_false] at hc0
        split at hc0
        · rename_i hsd
          simp only [Bool.and_eq_true, decide_eq_true_eq] at hsd
          cases hc0; omega
        · cases hff : firstForward a0.days cd with
          | none => simp [hff] at hc0
          | some i =>
            obtain ⟨hi1, -, -, -⟩ := firstForward_bounds hff
            simp only [hff, Option.some.injEq] at hc0
            omega
    rcases firstMin_computeNextAlarm alarms cd ct with ⟨-, hnone⟩ | ⟨a, m1, hres, hmin1, hfind⟩
    · rw [hnone a0 ha0] at hc0; cases hc0
    · have hmem := List.mem_of_find?_eq_some hfind
      have hp := List.find?_some hfind
      simp only [beq_iff_eq] at hp
      have h1 : m ≤ m1 := hmin a hmem m1 hp
      have h2 : m1 ≤ m := hmin1 a0 ha0 m hc0
      have hmm : m1 = m := le_antisymm h2 h1
      subst hmm
      rw [hres, hfind]
      exact ⟨rfl, rfl, hpos⟩

/-- Witness for C1: on the sample list, Monday 07:00, the every-day alarm at
08:00 is returned (difference 60); the Tuesday alarm and the disabled alarm
do not displace it. -/
theorem computeNextAlarm_first_minimal_witness :
    (∀ a ∈ sampleAlarms, WellFormedTime a.time) ∧ 420 < 1440 ∧
    computeNextAlarm (sampleAlarms.filter (fun a => a.enabled)) 1 420 =
      computeNextAlarm sampleAlarms 1 420 ∧
    computeNextAlarm sampleAlarms 1 420 = ⟨some ⟨1, "08:00", "", true⟩, some 60⟩ :=
  ⟨wellFormed_sampleAlarms, by decide,
    (computeNextAlarm_first_minimal sampleAlarms 1 420 wellFormed_sampleAlarms (by decide)).1,
    by decide⟩

/-- C4: `dayEnabled` compares labels, not positions.  The day-set made by
selecting only the Tuesday button is the string `"T"`; it passes for weekday
index 2 and also for index 4 (Thursday); the day-set made by selecting only
Sunday passes for index 6 (Saturday); and on Wednesday 09:00 the resolver
gives an 08:00 Tuesday alarm a candidate on Thursday (23 hours ahead) instead
of the following Tuesday. -/
theorem dayEnabled_label_collision :
    dayLettersFromRow (fun d => decide (d = 2)) = "T" ∧
    dayEnabled (dayLettersFromRow (fun d => decide (d = 2))) 2 = true ∧
    dayEnabled (dayLettersFromRow (fun d => decide (d = 2))) 4 = true ∧
    dayEnabled (dayLettersFromRow (fun d => decide (d = 0))) 6 = true ∧
    computeNextAlarm
        [⟨1, "08:00", dayLettersFromRow (fun d => decide (d = 2)), true⟩] 3 540 =
      ⟨some ⟨1, "08:00", "T", true⟩, some (23 * 60)⟩ := by
  decide

/-- The day test depends on the weekday only through its label: two weekdays
with the same letter pass or fail together, for every day-set. -/
theorem dayEnabled_same_label (days : String) (d1 d2 : Fin 7)
    (h : dayNames d1 = dayNames d2) : dayEnabled days d1 = dayEnabled days d2 := by
  simp [dayEnabled, h]

/-! ## Theorems: brightness conversions -/

/-- The model of binary64 rounding gives the double nearest to one tenth,
`0x1999999999999A * 2^-56`. -/
theorem binary64_tenth : binary64 ⟨1, 10⟩ = ⟨0x1999999999999A, 2 ^ 56⟩ := by
  decide

/-- The literal `2.55` is the double `0x14666666666666 * 2^-51`. -/
theorem binary64_2_55 : binary64 ⟨255, 100⟩ = ⟨0x14666666666666, 2 ^ 51⟩ := by
  decide

/-- The case `p = 30` of `toRaw`: the double `0.3` lies below 3/10, the exact
product with 255 lies below 76.5, and its rounding to a double is 76.5, which
`Math.round` takes to 77. -/
theorem toRaw_thirty :
    jsMul (jsDiv (Frac.ofNat 30) (Frac.ofNat 100)) (Frac.ofNat 255) = ⟨153 * 2 ^ 45, 2 ^ 46⟩ ∧
      toRaw 30 = 77 := by
  decide

set_option maxRecDepth 100000 in
theorem toRaw_eq_exact : ∀ p, p < 101 → toRaw p = (51 * p + 10) / 20 := by
  decide

set_option maxRecDepth 100000 in
theorem toPercent_eq_exact : ∀ r, r < 256 → toPercent r = (40 * r + 51) / 102 := by
  decide

theorem toPercent_toRaw_exact (p : Nat) :
    (40 * ((51 * p + 10) / 20) + 51) / 102 = p := by
  omega

/-- C5: for every integer `p` in `0..100`, `toPercent (toRaw p)` differs from
`p` by at most 1. -/
theorem toPercent_toRaw_near (p : Nat) (hp : p ≤ 100) :
    |(toPercent (toRaw p) : Int) - (p : Int)| ≤ 1 := by
  have h1 := toRaw_eq_exact p (by omega)
  have h2 := toPercent_eq_exact (toRaw p) (by rw [h1]; omega)
  have h3 := toPercent_toRaw_exact p
  rw [h2, h1, h3]
  simp

/-- Witness for C5 at `p = 37`. -/
theorem toPercent_toRaw_near_witness :
    37 ≤ 100 ∧ |(toPercent (toRaw 37) : Int) - (37 : Nat)| ≤ 1 :=
  ⟨by decide, toPercent_toRaw_near 37 (by decide)⟩

/-- C6: for every device value `r` in `0..255`, `toPercent r` lies in `0..100`
and `toRaw (toPercent r)` differs from `r` by at most 1. -/
theorem toRaw_toPercent_near (r : Nat) (hr : r ≤ 255) :
    toPercent r ≤ 100 ∧ |(toRaw (toPercent r) : Int) - (r : Int)| ≤ 1 := by
  have h1 := toPercent_eq_exact r (by omega)
  have hle : toPercent r ≤ 100 := by rw [h1]; omega
  have h2 := toRaw_eq_exact (toPercent r) (by omega)
  refine ⟨hle, ?_⟩
  rw [h2, h1, abs_le]
  constructor <;> omega

/-- Witness for C6 at `r = 4`, where the round trip gives 5. -/
theorem toRaw_toPercent_near_witness :
    4 ≤ 255 ∧ toPercent 4 ≤ 100 ∧ |(toRaw (toPercent 4) : Int) - (4 : Nat)| ≤ 1 :=
  ⟨by decide, toRaw_toPercent_near 4 (by decide)⟩

/-! ## Theorems: device clock -/

theorem clockInv_tick (e0 s0 : Int) (c : Clock) (p t : Int)
    (h : ClockInv e0 s0 c p) (hpt : p ≤ t) : ClockInv e0 s0 (clockTick c t) t := by
  obtain ⟨e, he, hsync, hle, hlt⟩ := h
  unfold clockTick
  rw [he]
  simp only []
  split
  · rename_i hpos
    refine ⟨e + (t - c.lastSyncMs) / 1000, rfl, ?_, ?_, ?_⟩ <;> simp only [] <;> omega
  · rename_i hpos
    refine ⟨e, he, hsync, by omega, by omega⟩

theorem clockInv_foldl (e0 s0 : Int) (ts : List Int) (t : Int) (c : Clock) (p : Int)
    (h : ClockInv e0 s0 c p) (hchain : List.Chain (fun a b : Int => a ≤ b) p (ts ++ [t])) :
    ClockInv e0 s0 ((ts ++ [t]).foldl clockTick c) t := by
  induction ts generalizing c p with
  | nil =>
    simp only [List.nil_append, List.chain_cons, List.Chain.nil, and_true] at hchain
    simpa using clockInv_tick e0 s0 c p t h hchain
  | cons x xs ih =>
    simp only [List.cons_append, List.chain_cons] at hchain
    have hx := clockInv_tick e0 s0 c p x h hchain.1
    simpa using ih (clockTick c x) x hx hchain.2

/-- C7: after a sample `(e0, s0)` and ticks at times `s0 ≤ t1 ≤ ... ≤ tn`
(here `ts ++ [t]`, so `t` is the time of the latest tick), the displayed epoch
is `e0 + floor((t - s0)/1000)` and `0 ≤ t - lastSyncMs < 1000`; a tick without a
sample changes nothing. -/
theorem clockTick_sequence (c0 : Clock) (e0 s0 : Int) (ts : List Int) (t : Int)
    (hchain : List.Chain (fun a b : Int => a ≤ b) s0 (ts ++ [t])) :
    ((ts ++ [t]).foldl clockTick (setSample c0 e0 s0)).deviceEpoch =
        some (e0 + (t - s0) / 1000) ∧
      0 ≤ t - ((ts ++ [t]).foldl clockTick (setSample c0 e0 s0)).lastSyncMs ∧
      t - ((ts ++ [t]).foldl clockTick (setSample c0 e0 s0)).lastSyncMs < 1000 ∧
      ∀ (l now : Int), clockTick ⟨none, l⟩ now = ⟨none, l⟩ := by
  have h0 : ClockInv e0 s0 (setSample c0 e0 s0) s0 :=
    ⟨e0, rfl, by simp [setSample], by simp [setSample], by simp [setSample]⟩
  obtain ⟨e, he, hsync, hle, hlt⟩ := clockInv_foldl e0 s0 ts t _ s0 h0 hchain
  refine ⟨?_, by omega, by omega, fun l now => rfl⟩
  rw [he]
  congr 1
  omega

/-- Witness for C7: a sample of epoch 1000 taken at 50 ms, then ticks at 1040,
2051 and 4300 ms (the last one late): the display shows 1004 and `lastSyncMs`
is 4050. -/
theorem clockTick_sequence_witness :
    List.Chain (fun a b : Int => a ≤ b) 50 ([1040, 2051] ++ [4300]) ∧
    (([1040, 2051] ++ [4300]).foldl clockTick (setSample Clock.init 1000 50)).deviceEpoch =
      some (1000 + (4300 - 50) / 1000) ∧
    ([1040, 2051, 4300].foldl clockTick (setSample Clock.init 1000 50)) = ⟨some 1004, 4050⟩ :=
  ⟨by simp, (clockTick_sequence Clock.init 1000 50 [1040, 2051] 4300 (by simp)).1, by decide⟩

/-- C8: for every clock state with a sample and every local time passed to a
tick (late, or earlier than the last tick), the displayed epoch after the tick
is at least the displayed epoch before it. -/
theorem clockTick_monotone (c : Clock) (e now : Int) (h : c.deviceEpoch = some e) :
    ∃ e1, (clockTick c now).deviceEpoch = some e1 ∧ e ≤ e1 := by
  unfold clockTick
  rw [h]
  simp only []
  split
  · exact ⟨_, rfl, by omega⟩
  · exact ⟨e, h, le_refl _⟩

/-- Witness for C8: a tick whose local time lies before `lastSyncMs` leaves the
epoch where it was. -/
theorem clockTick_monotone_witness :
    (⟨some 1000, 5000⟩ : Clock).deviceEpoch = some 1000 ∧
      ∃ e1, (clockTick ⟨some 1000, 5000⟩ 1200).deviceEpoch = some e1 ∧ (1000 : Int) ≤ e1 :=
  ⟨rfl, clockTick_monotone ⟨some 1000, 5000⟩ 1000 1200 rfl⟩

/-! ## Theorems: debounce -/

/-- C10: whenever the lead time read from the ramp input is `≤ 0`, `startTest`
changes nothing: no request is added, both buttons keep their state, no
interval is installed and no continuation is left waiting. -/
theorem startTest_noop (s : RampTest) (h : leadSecOf s.rampValue ≤ 0) :
    startTest s = s ∧
    (startTest s).requests = s.requests ∧
    (startTest s).testBtnDisabled = s.testBtnDisabled ∧
    (startTest s).stopBtnDisabled = s.stopBtnDisabled ∧
    (startTest s).intervals = s.intervals ∧
    (startTest s).testTimer = s.testTimer ∧
    (startTest s).awaitingStart = s.awaitingStart := by
  have hs : startTest s = s := by simp [startTest, h]
  rw [hs]
  simp

/-- Witness for C10: the inputs `"0"`, `"-5"`, the empty input and `"abc"` all
read as a lead time `≤ 0`, and with `-5` in the input `startTest` leaves the
sample state as it was. -/
theorem startTest_noop_witness :
    leadSecOf "0" ≤ 0 ∧ leadSecOf "-5" ≤ 0 ∧ leadSecOf "" ≤ 0 ∧ leadSecOf "abc" ≤ 0 ∧
    leadSecOf sampleRampTest.rampValue ≤ 0 ∧ startTest sampleRampTest = sampleRampTest :=
  ⟨by decide, by decide, by decide, by decide, by decide,
    (startTest_noop sampleRampTest (by decide)).1⟩

/-! ## Theorems: stopping the test -/

theorem not_mem_clearInterval (intervals : List Nat) (id : Nat) :
    id ∉ clearInterval intervals (some id) := by
  simp [clearInterval]

/-- C12: for every controller state and both values of `fromAuto`, `stopTest`
sends one `/alarmtest/stop` request and removes the interval held in
`testTimer` from the host; its continuation, in whatever state `s1` the
response finds, leaves the start button enabled and the stop button disabled,
keeps the interval list, and resets the progress line (class `active` removed,
width `0%`) when the stop is manual, while an automatic stop leaves the progress
line as it is. -/
theorem stopTest_effect (s : RampTest) (fromAuto : Bool) :
    (stopTest s fromAuto).requests = s.requests ++ [Request.alarmtestStop] ∧
    (stopTest s fromAuto).awaitingStop = s.awaitingStop ++ [fromAuto] ∧
    (∀ id, s.testTimer = some id → id ∉ (stopTest s fromAuto).intervals) ∧
    (∀ s1 : RampTest,
      (stopTestRest s1 fromAuto).testBtnDisabled = false ∧
      (stopTestRest s1 fromAuto).stopBtnDisabled = true ∧
      (stopTestRest s1 fromAuto).intervals = s1.intervals ∧
      (stopTestRest s1 fromAuto).requests = s1.requests ∧
      (fromAuto = false →
        (stopTestRest s1 fromAuto).progressActive = false ∧
        (stopTestRest s1 fromAuto).progressWidth = 0) ∧
      (fromAuto = true →
        (stopTestRest s1 fromAuto).progressActive = s1.progressActive ∧
        (stopTestRest s1 fromAuto).progressWidth = s1.progressWidth)) ∧
    (s.awaitingStop = [] →
      stopTestSettled (stopTest s fromAuto) =
        stopTestRest { stopTest s fromAuto with awaitingStop := [] } fromAuto) := by
  refine ⟨rfl, rfl, ?_, ?_, ?_⟩
  · intro id hid
    simp only [stopTest, hid]
    exact not_mem_clearInterval _ _
  · intro s1
    cases fromAuto <;> simp [stopTestRest, setProgressActive]
  · intro h
    simp [stopTestSettled, stopTest, h]

/-- Witness for C12: a manual stop of the sample state, where a test is shown
as running, sends the stop request, removes interval 3 and ends with the start
button enabled, the stop button disabled and the progress line hidden at 0%. -/
theorem stopTest_effect_witness :
    sampleRampTest.awaitingStop = [] ∧
    stopTestSettled (stopTest sampleRampTest false) =
      { sampleRampTest with
        intervals := [], requests := [Request.alarmtestStart 10, Request.alarmtestStop],
        testBtnDisabled := false, stopBtnDisabled := true,
        progressActive := false, progressWidth := 0 } :=
  ⟨rfl, ((stopTest_effect sampleRampTest false).2.2.2.2 rfl).trans (by decide)⟩

/-! ## Theorems: party configuration -/

/-- C13: for every party state and every party event, the handler sends exactly
one `/party/set` request (none only for a radio event whose input is not
checked, which changes nothing); that request carries `on`, `music`, `effect`,
`speed`, `bri`, `mode` and the `r`, `g`, `b` of `hexToRgb(color)`, each taken
from the party state after the edit; and the edit changes only its own field. -/
theorem partyEdit_complete (st : PartyState) (e : PartyEdit) :
    ((partyEdit st e).2 =
        [Request.partySet (partyEdit st e).1.partyOn (partyEdit st e).1.music
          (partyEdit st e).1.effect (partyEdit st e).1.speed (partyEdit st e).1.bri
          (partyEdit st e).1.mode (hexToRgb (partyEdit st e).1.color).r
          (hexToRgb (partyEdit st e).1.color).g (hexToRgb (partyEdit st e).1.color).b] ∨
      ((∃ v, e = PartyEdit.colorMode v false) ∧ partyEdit st e = (st, []))) ∧
    (match e with
      | PartyEdit.switch checked => (partyEdit st e).1 = { st with partyOn := checked }
      | PartyEdit.musicSwitch checked => (partyEdit st e).1 = { st with music := checked }
      | PartyEdit.effect idx => (partyEdit st e).1 = { st with effect := idx }
      | PartyEdit.speed value =>
        (partyEdit st e).1 =
          { st with speed := parseInt10 (if value.data.isEmpty then "50" else value) }
      | PartyEdit.brightness value =>
        (partyEdit st e).1 =
          { st with bri := parseInt10 (if value.data.isEmpty then "80" else value) }
      | PartyEdit.colorMode value checked =>
        (partyEdit st e).1 = if checked then { st with mode := value } else st
      | PartyEdit.singleColor value =>
        (partyEdit st e).1 =
          { st with color := if value.data.isEmpty then "#ff0000" else value }) := by
  constructor
  · cases e with
    | colorMode value checked =>
      cases checked
      · right
        exact ⟨⟨value, rfl⟩, rfl⟩
      · left
        rfl
    | switch checked => left; rfl
    | musicSwitch checked => left; rfl
    | effect idx => left; rfl
    | speed value => left; rfl
    | brightness value => left; rfl
    | singleColor value => left; rfl
  · cases e with
    | colorMode value checked => cases checked <;> rfl
    | switch checked => rfl
    | musicSwitch checked => rfl
    | effect idx => rfl
    | speed value => rfl
    | brightness value => rfl
    | singleColor value => rfl

/-! ## Theorems: next-alarm readout -/

theorem candidateDiff_pos (cd : Fin 7) (ct : Nat) (a : Alarm) (m : Int)
    (hwf : WellFormedTime a.time) (hct : ct < 1440) (hc : candidateDiff cd ct a = some m) :
    0 < m := by
  obtain ⟨t, ht, -⟩ := alarmTime_of_wellFormed hwf
  unfold candidateDiff at hc
  rw [ht] at hc
  cases hen : a.enabled with
  | false => simp [hen] at hc
  | true =>
    simp only [hen, Bool.not_true, Bool.false_eq_true, if_false] at hc
    split at hc
    · rename_i hsd
      simp only [Bool.and_eq_true, decide_eq_true_eq] at hsd
      cases hc; omega
    · cases hff : firstForward a.days cd with
      | none => simp [hff] at hc
      | some i =>
        obtain ⟨hi1, -, -, -⟩ := firstForward_bounds hff
        simp only [hff, Option.some.injEq] at hc
        omega

theorem computeNextAlarm_result (alarms : List Alarm) (cd : Fin 7) (ct : Nat)
    (hwf : ∀ a ∈ alarms, WellFormedTime a.time) (hct : ct < 1440) :
    computeNextAlarm alarms cd ct = ⟨none, none⟩ ∨
      ∃ a d, computeNextAlarm alarms cd ct = ⟨some a, some d⟩ ∧ 0 < d := by
  rcases firstMin_computeNextAlarm alarms cd ct with ⟨h, -⟩ | ⟨a, m, hres, -, hfind⟩
  · exact Or.inl h
  · right
    have hmem := List.mem_of_find?_eq_some hfind
    have hp := List.find?_some hfind
    simp only [beq_iff_eq] at hp
    exact ⟨a, m, hres, candidateDiff_pos cd ct a m (hwf a hmem) hct hp⟩

/-- C14: for a result without candidate `updateNextAlarm` shows `--:--` and
`No upcoming alarms`; for a result with alarm `a` and `minDiff = d ≥ 0` it shows
the time of `a` and, with `h = d / 60` and `m = d % 60` (so `60 * h + m = d` and
`0 ≤ m < 60`), the text `In {h}h {m}m` when `h > 0` and `In {m}m` when `h = 0`;
and every result of `computeNextAlarm` on well-formed times at a minute of the
day is of one of these two kinds, with `d > 0`. -/
theorem updateNextAlarm_display (r : NextAlarm) :
    (r.nextAlarm = none →
      (updateNextAlarm r).nextTime = "--:--" ∧
      (updateNextAlarm r).timeRemaining = "No upcoming alarms") ∧
    (∀ a d, r.nextAlarm = some a → r.minDiff = some d → 0 ≤ d →
      60 * (d / 60) + d % 60 = d ∧ 0 ≤ d % 60 ∧ d % 60 < 60 ∧ 0 ≤ d / 60 ∧
      (updateNextAlarm r).nextTime = a.time ∧
      (0 < d / 60 →
        (updateNextAlarm r).timeRemaining =
          "In " ++ toString (d / 60) ++ "h " ++ toString (d % 60) ++ "m") ∧
      (d / 60 = 0 →
        (updateNextAlarm r).timeRemaining = "In " ++ toString (d % 60) ++ "m")) ∧
    (∀ (alarms : List Alarm) (cd : Fin 7) (ct : Nat),
      (∀ a ∈ alarms, WellFormedTime a.time) → ct < 1440 →
      computeNextAlarm alarms cd ct = ⟨none, none⟩ ∨
        ∃ a d, computeNextAlarm alarms cd ct = ⟨some a, some d⟩ ∧ 0 < d) := by
  refine ⟨?_, ?_, fun alarms cd ct hwf hct => computeNextAlarm_result alarms cd ct hwf hct⟩
  · intro h
    simp [updateNextAlarm, h]
  · intro a d ha hd hd0
    have htmod : d.tmod 60 = d % 60 := Int.tmod_eq_emod hd0 (by decide)
    refine ⟨by omega, by omega, by omega, by omega, ?_, ?_, ?_⟩
    · simp [updateNextAlarm, ha]
    · intro hpos
      simp [updateNextAlarm, ha, hd, htmod, hpos]
    · intro hzero
      simp [updateNextAlarm, ha, hd, htmod, hzero]

/-- Witness for C14: the sample list on Monday 06:45 gives the 08:00 alarm with
`minDiff = 75`, shown as `In 1h 15m`; a result 45 minutes ahead is shown as
`In 45m`. -/
theorem updateNextAlarm_display_witness :
    updateNextAlarm (computeNextAlarm sampleAlarms 1 405) =
      ⟨"08:00", "In 1h 15m", "#007bff", "700"⟩ ∧
    (updateNextAlarm ⟨some ⟨1, "08:00", "", true⟩, some 45⟩).timeRemaining =
      "In " ++ toString ((45 : Int) % 60) ++ "m" ∧
    (updateNextAlarm ⟨some ⟨1, "08:00", "", true⟩, some 45⟩).timeRemaining = "In 45m" :=
  ⟨by decide,
    ((updateNextAlarm_display ⟨some ⟨1, "08:00", "", true⟩, some 45⟩).2.1
      ⟨1, "08:00", "", true⟩ 45 rfl rfl (by decide)).2.2.2.2.2.2 (by decide),
    by decide⟩

/-! ## Theorems: input clamping -/

set_option maxRecDepth 100000 in
theorem fieldText_twoDigits :
    ∀ n : Nat, n < 60 → fieldText (n : Int) = twoDigits n := by
  decide

set_option maxRecDepth 100000 in
theorem readField_twoDigits :
    ∀ n : Nat, n < 60 → readField (twoDigits n) = (n : Int) := by
  decide

theorem wellFormedTime_twoDigits (h m : Nat) (hh : h < 24) (hm : m < 60) :
    WellFormedTime
      (String.mk (padStart2 (twoDigits h).data ++ ':' :: padStart2 (twoDigits m).data)) := by
  refine ⟨Nat.digitChar (h / 10), Nat.digitChar (h % 10), Nat.digitChar (m / 10),
    Nat.digitChar (m % 10), by simp [twoDigits, padStart2], ?_, ?_, ?_, ?_, ?_, ?_⟩
  · interval_cases h <;> decide
  · interval_cases h <;> decide
  · interval_cases m <;> decide
  · interval_cases m <;> decide
  · interval_cases h <;> decide
  · interval_cases m <;> decide

theorem onInput_range (text : String) (max : Nat) (hmax : max < 60) :
    ∃ n : Nat, n ≤ max ∧ onInput text 0 max = twoDigits n := by
  unfold onInput
  simp only []
  generalize readField text = v0
  by_cases h1 : v0 > (max : Int)
  · refine ⟨max, le_refl _, ?_⟩
    have h2 : ¬ ((max : Int) < 0) := by omega
    simp only [h1, if_true, h2, if_false]
    exact fieldText_twoDigits max hmax
  · by_cases h2 : v0 < 0
    · refine ⟨0, Nat.zero_le _, ?_⟩
      simp only [h1, if_false, h2, if_true]
      exact fieldText_twoDigits 0 (by omega)
    · refine ⟨v0.toNat, by omega, ?_⟩
      simp only [h1, if_false, h2]
      have hv : v0 = (v0.toNat : Int) := by omega
      rw [hv]
      exact fieldText_twoDigits v0.toNat (by omega)

theorem fieldStep_range (max : Nat) (hmax : max < 60) (value : String) (e : FieldEvent)
    (hv : ∃ n : Nat, n ≤ max ∧ value = twoDigits n) :
    ∃ n : Nat, n ≤ max ∧ fieldStep 0 max value e = twoDigits n := by
  obtain ⟨n, hn, rfl⟩ := hv
  have hread : readField (twoDigits n) = (n : Int) := readField_twoDigits n (by omega)
  cases e with
  | typed text => exact onInput_range text max hmax
  | wheel up =>
    simp only [fieldStep, onWheel, hread]
    cases up
    · simp only [Bool.false_eq_true, if_false]
      by_cases h0 : n = 0
      · subst h0
        refine ⟨max, le_refl _, ?_⟩
        have h1 : ¬ ((0 : Int) - 1 > (max : Int)) := by omega
        have h2 : ((0 : Int) - 1 < 0) := by omega
        simp only [Nat.cast_zero, h1, if_false, h2, if_true]
        exact fieldText_twoDigits max hmax
      · refine ⟨n - 1, by omega, ?_⟩
        have h1 : ¬ ((n : Int) - 1 > (max : Int)) := by omega
        have h2 : ¬ ((n : Int) - 1 < 0) := by omega
        simp only [h1, if_false, h2]
        have : (n : Int) - 1 = ((n - 1 : Nat) : Int) := by omega
        rw [this]
        exact fieldText_twoDigits (n - 1) (by omega)
    · simp only [if_true]
      by_cases hm : n = max
      · subst hm
        refine ⟨0, Nat.zero_le _, ?_⟩
        have h1 : ((n : Int) + 1 > (n : Int)) := by omega
        have h2 : ¬ ((0 : Int) < 0) := by omega
        simp only [h1, if_true, h2, if_false]
        exact fieldText_twoDigits 0 (by omega)
      · refine ⟨n + 1, by omega, ?_⟩
        have h1 : ¬ ((n : Int) + 1 > (max : Int)) := by omega
        have h2 : ¬ ((n : Int) + 1 < 0) := by omega
        simp only [h1, if_false, h2]
        have : (n : Int) + 1 = ((n + 1 : Nat) : Int) := by omega
        rw [this]
        exact fieldText_twoDigits (n + 1) (by omega)
  | key k =>
    cases k with
    | other => exact ⟨n, hn, rfl⟩
    | arrowUp =>
      simp only [fieldStep, onKeydown, hread]
      by_cases hm : n = max
      · subst hm
        refine ⟨0, Nat.zero_le _, ?_⟩
        have h1 : ((n : Int) + 1 > (n : Int)) := by omega
        simp only [h1, if_true]
        exact fieldText_twoDigits 0 (by omega)
      · refine ⟨n + 1, by omega, ?_⟩
        have h1 : ¬ ((n : Int) + 1 > (max : Int)) := by omega
        simp only [h1, if_false]
        have : (n : Int) + 1 = ((n + 1 : Nat) : Int) := by omega
        rw [this]
        exact fieldText_twoDigits (n + 1) (by omega)
    | arrowDown =>
      simp only [fieldStep, onKeydown, hread]
      by_cases h0 : n = 0
      · subst h0
        refine ⟨max, le_refl _, ?_⟩
        have h1 : ((0 : Int) - 1 < 0) := by omega
        simp only [Nat.cast_zero, h1, if_true]
        exact fieldText_twoDigits max hmax
      · refine ⟨n - 1, by omega, ?_⟩
        have h1 : ¬ ((n : Int) - 1 < 0) := by omega
        simp only [h1, if_false]
        have : (n : Int) - 1 = ((n - 1 : Nat) : Int) := by omega
        rw [this]
        exact fieldText_twoDigits (n - 1) (by omega)

theorem fieldRun_range (max : Nat) (hmax : max < 60) (events : List FieldEvent) (value : String)
    (hv : ∃ n : Nat, n ≤ max ∧ value = twoDigits n) :
    ∃ n : Nat, n ≤ max ∧ events.foldl (fieldStep 0 max) value = twoDigits n := by
  induction events generalizing value with
  | nil => simpa using hv
  | cons e es ih => simpa using ih _ (fieldStep_range max hmax value e hv)

theorem digitChar_spec (k : Nat) (h : k < 10) :
    (Nat.digitChar k).isDigit = true ∧ (Nat.digitChar k).toNat - '0'.toNat = k := by
  interval_cases k <;> decide

theorem toDigitsCore_spec (fuel : Nat) : ∀ (n : Nat) (ds : List Char), n < fuel →
    ∃ pre, Nat.toDigitsCore 10 fuel n ds = pre ++ ds ∧ pre ≠ [] ∧
      (∀ c ∈ pre, c.isDigit = true) ∧ digitsNat pre = n := by
  induction fuel with
  | zero => intro n ds h; omega
  | succ fuel ih =>
    intro n ds h
    have hd := digitChar_spec (n % 10) (Nat.mod_lt _ (by decide))
    unfold Nat.toDigitsCore
    by_cases h0 : n / 10 = 0
    · refine ⟨[Nat.digitChar (n % 10)], by simp [h0], by simp, by simpa using hd.1, ?_⟩
      simp only [digitsNat, List.foldl_cons, List.foldl_nil]
      omega
    · obtain ⟨pre, hpre, _, hall, hval⟩ := ih (n / 10) (Nat.digitChar (n % 10) :: ds) (by omega)
      refine ⟨pre ++ [Nat.digitChar (n % 10)], by simp [h0, hpre], by simp, ?_, ?_⟩
      · intro c hc
        rcases List.mem_append.1 hc with h1 | h1
        · exact hall c h1
        · simp only [List.mem_singleton] at h1
          rw [h1]
          exact hd.1
      · unfold digitsNat at hval ⊢
        rw [List.foldl_append, hval]
        simp only [List.foldl_cons, List.foldl_nil]
        omega

theorem toString_nat_spec (n : Nat) :
    (toString n).data ≠ [] ∧ (∀ c ∈ (toString n).data, c.isDigit = true) ∧
      digitsNat (toString n).data = n := by
  obtain ⟨pre, hpre, hne, hall, hval⟩ := toDigitsCore_spec (n + 1) n [] (by omega)
  have h : (toString n).data = pre := by
    show (Nat.toDigits 10 n) = pre
    unfold Nat.toDigits
    rw [hpre, List.append_nil]
  rw [h]
  exact ⟨hne, hall, hval⟩

theorem isDigit_bounds {c : Char} (h : c.isDigit = true) : 48 ≤ c.toNat ∧ c.toNat ≤ 57 := by
  simp [Char.isDigit] at h
  simp [Char.toNat]
  exact h

theorem isJsSpace_digit {c : Char} (h : c.isDigit = true) : isJsSpace c = false := by
  have hb := isDigit_bounds h
  simp only [isJsSpace, Bool.or_eq_false_iff, decide_eq_false_iff_not, Bool.and_eq_false_iff]
  omega

theorem takeWhile_all {α : Type} (p : α → Bool) (l : List α) (h : ∀ c ∈ l, p c = true) :
    l.takeWhile p = l := by
  induction l with
  | nil => rfl
  | cons a t ih =>
    have ha := h a (by simp)
    simp only [List.takeWhile_cons, ha, if_true]
    rw [ih (fun c hc => h c (by simp [hc]))]

theorem parseIntRadix_digits (c : Char) (rest : List Char)
    (h : ∀ x ∈ c :: rest, x.isDigit = true) :
    parseIntRadix false (c :: rest) = some (digitsNat (c :: rest) : Int) ∧
      parseIntRadix false ('-' :: c :: rest) = some (-(digitsNat (c :: rest) : Int)) := by
  have hc : c.isDigit = true := h c (by simp)
  have hsp : isJsSpace c = false := isJsSpace_digit hc
  have hm : c ≠ '-' := by rintro rfl; exact absurd hc (by decide)
  have hp : c ≠ '+' := by rintro rfl; exact absurd hc (by decide)
  have htw : (c :: rest).takeWhile Char.isDigit = c :: rest := takeWhile_all _ _ h
  have hminus : isJsSpace '-' = false := by decide
  have hd1 : (c :: rest).dropWhile isJsSpace = c :: rest := by simp [List.dropWhile, hsp]
  have hd2 : ('-' :: c :: rest).dropWhile isJsSpace = '-' :: c :: rest := by
    simp [List.dropWhile, hminus]
  cases rest with
  | nil => constructor <;> simp [parseIntRadix, hd1, hd2, hm, hp, htw]
  | cons d rest1 =>
    have hd : d.isDigit = true := h d (by simp)
    have hx : d ≠ 'x' := by rintro rfl; exact absurd hd (by decide)
    have hX : d ≠ 'X' := by rintro rfl; exact absurd hd (by decide)
    constructor <;> simp [parseIntRadix, hd1, hd2, hm, hp, htw, hx, hX]

theorem parseInt10_digits (c : Char) (rest : List Char)
    (h : ∀ x ∈ c :: rest, x.isDigit = true) :
    parseInt10 (String.mk (c :: rest)) = some (digitsNat (c :: rest) : Int) := by
  have hc : c.isDigit = true := h c (by simp)
  have hsp : isJsSpace c = false := isJsSpace_digit hc
  have hm : c ≠ '-' := by rintro rfl; exact absurd hc (by decide)
  have hp : c ≠ '+' := by rintro rfl; exact absurd hc (by decide)
  have htw : (c :: rest).takeWhile Char.isDigit = c :: rest := takeWhile_all _ _ h
  have hd1 : (c :: rest).dropWhile isJsSpace = c :: rest := by simp [List.dropWhile, hsp]
  simp [parseInt10, hd1, hm, hp, htw]

theorem readField_nat (n : Nat) :
    readField (toString n) = (n : Int) ∧ readField (toString (-(n : Int))) = -(n : Int) := by
  have key : ∀ m : Nat, readField (toString m) = (m : Int) ∧
      readField (String.mk ('-' :: (toString m).data)) = -(m : Int) := by
    intro m
    obtain ⟨hne, hall, hval⟩ := toString_nat_spec m
    match hd : (toString m).data, hne, hall, hval with
    | c :: rest, _, hall, hval =>
      have hp := parseIntRadix_digits c rest hall
      unfold readField
      rw [hd]
      show (parseIntRadix false (c :: rest)).getD 0 = _ ∧
        (parseIntRadix false ('-' :: c :: rest)).getD 0 = _
      rw [hp.1, hp.2, hval]
      simp
  refine ⟨(key n).1, ?_⟩
  cases n with
  | zero => decide
  | succ k =>
    have : toString (-((k + 1 : Nat) : Int)) = String.mk ('-' :: (toString (k + 1)).data) := by
      show Int.repr (-((k + 1 : Nat) : Int)) = _
      have : -((k + 1 : Nat) : Int) = Int.negSucc k := rfl
      rw [this]
      rfl
    rw [this]
    exact (key (k + 1)).2

theorem leadSecOf_nat (n : Nat) : leadSecOf (toString n) = (n : Int) := by
  obtain ⟨hne, hall, hval⟩ := toString_nat_spec n
  match hd : (toString n).data, hne, hall, hval with
  | c :: rest, _, hall, hval =>
    have hs : toString n = String.mk (c :: rest) := by
      rw [← hd]
    unfold leadSecOf
    rw [hs]
    simp only [List.isEmpty_cons, Bool.false_eq_true, if_false]
    rw [parseInt10_digits c rest hall, hval]
    rfl

theorem onInput_clamp (text : String) (max : Nat) (hmax : max < 60) :
    onInput text 0 max = twoDigits (min (readField text).toNat max) := by
  unfold onInput
  simp only []
  generalize readField text = v0
  by_cases h1 : v0 > (max : Int)
  · have h2 : ¬ ((max : Int) < 0) := by omega
    have h3 : min v0.toNat max = max := by omega
    simp only [h1, if_true, h2, if_false, h3]
    exact fieldText_twoDigits max hmax
  · by_cases h2 : v0 < 0
    · have h3 : min v0.toNat max = 0 := by omega
      simp only [h1, if_false, h2, if_true, h3]
      exact fieldText_twoDigits 0 (by omega)
    · have h3 : min v0.toNat max = v0.toNat := by omega
      simp only [h1, if_false, h2, h3]
      have hv : v0 = (v0.toNat : Int) := by omega
      rw [hv]
      exact fieldText_twoDigits v0.toNat (by omega)

theorem saveAlarmCfg_timeout_clamp (s : RampTest) :
    (saveAlarmCfg s).requests = s.requests ++
      [Request.alarmcfgSet (leadSecOf s.rampValue) s.ledActive s.buzzActive
        (60 * max 1 (min (leadSecOf s.timeoutValue) 120))] := by
  unfold saveAlarmCfg
  simp only []
  generalize leadSecOf s.timeoutValue = t
  by_cases h1 : t < 1
  · have h3 : max 1 (min t 120) = 1 := by omega
    simp [h1, h3]
  · by_cases h2 : t > 120
    · have h3 : max 1 (min t 120) = 120 := by omega
      simp [h1, h2, h3]
    · have h3 : max 1 (min t 120) = t := by omega
      simp [h1, h2, h3, mul_comm]

/-- C16: the `input` handler writes the two zero-padded digits of the typed
number clamped to `0..23` resp. `0..59`: for every text, the digits of
`parseInt(value)||0` brought into the range; for the decimal numeral of any
`n`, the digits of `min n 23` resp. `min n 59`; `00` for a negative numeral and
for text without a number.  So the add request carries those digits as
`HH:MM`, also after any further typing, wheel and key events on fields that
start at `00`.  For every content of the timeout field the `/alarmcfg/set`
request carries `timeout = 60 * k`, `k` being the parsed number clamped to
`1..120`; for the numeral of `n` that is `60 * max 1 (min n 120)`. -/
theorem inputs_clamped :
    (∀ text : String,
      onInput text 0 23 = twoDigits (min (readField text).toNat 23) ∧
      onInput text 0 59 = twoDigits (min (readField text).toNat 59)) ∧
    (∀ n : Nat,
      onInput (toString n) 0 23 = twoDigits (min n 23) ∧
      onInput (toString n) 0 59 = twoDigits (min n 59) ∧
      onInput (toString (-(n : Int))) 0 23 = "00" ∧
      onInput (toString (-(n : Int))) 0 59 = "00") ∧
    (onInput "7" 0 23 = "07" ∧ onInput "25" 0 23 = "23" ∧ onInput "-3" 0 23 = "00" ∧
      onInput "" 0 23 = "00" ∧ onInput "abc" 0 23 = "00" ∧ onInput "7" 0 59 = "07" ∧
      onInput "75" 0 59 = "59" ∧ onInput " 4x" 0 59 = "04") ∧
    (∀ (hourText minuteText : String) (active : Fin 7 → Bool),
      addAlarmRequest (onInput hourText 0 23) (onInput minuteText 0 59) active =
        Request.alarmsAdd
          (String.mk ((twoDigits (min (readField hourText).toNat 23)).data ++
            ':' :: (twoDigits (min (readField minuteText).toNat 59)).data))
          (dayLettersFromRow active)) ∧
    (∀ (hourEvents minuteEvents : List FieldEvent) (active : Fin 7 → Bool),
      ∃ h m : Nat, h ≤ 23 ∧ m ≤ 59 ∧
        hourEvents.foldl (fieldStep 0 23) "00" = twoDigits h ∧
        minuteEvents.foldl (fieldStep 0 59) "00" = twoDigits m ∧
        addAlarmRequest (hourEvents.foldl (fieldStep 0 23) "00")
          (minuteEvents.foldl (fieldStep 0 59) "00") active =
          Request.alarmsAdd (String.mk ((twoDigits h).data ++ ':' :: (twoDigits m).data))
            (dayLettersFromRow active) ∧
        WellFormedTime (String.mk ((twoDigits h).data ++ ':' :: (twoDigits m).data))) ∧
    (∀ s : RampTest, ∃ lead : Int,
      (saveAlarmCfg s).requests = s.requests ++
        [Request.alarmcfgSet lead s.ledActive s.buzzActive
          (60 * max 1 (min (leadSecOf s.timeoutValue) 120))]) ∧
    (∀ (s : RampTest) (n : Nat), ∃ lead : Int,
      (saveAlarmCfg { s with timeoutValue := toString n }).requests = s.requests ++
        [Request.alarmcfgSet lead s.ledActive s.buzzActive (60 * max 1 (min (n : Int) 120))]) ∧
    ((saveAlarmCfg { sampleRampTest with timeoutValue := "45", requests := [] }).requests =
        [Request.alarmcfgSet (-5) true false 2700] ∧
      (saveAlarmCfg { sampleRampTest with timeoutValue := "0", requests := [] }).requests =
        [Request.alarmcfgSet (-5) true false 60] ∧
      (saveAlarmCfg { sampleRampTest with timeoutValue := "", requests := [] }).requests =
        [Request.alarmcfgSet (-5) true false 60] ∧
      (saveAlarmCfg { sampleRampTest with timeoutValue := "500", requests := [] }).requests =
        [Request.alarmcfgSet (-5) true false 7200]) := by
  have hpad : ∀ k : Nat, padStart2 (twoDigits k).data = (twoDigits k).data := fun k => rfl
  refine ⟨fun text => ⟨onInput_clamp text 23 (by decide), onInput_clamp text 59 (by decide)⟩,
    ?_, by decide, ?_, ?_, fun s => ⟨_, saveAlarmCfg_timeout_clamp s⟩, ?_, by decide⟩
  · intro n
    have hn := readField_nat n
    have h1 := onInput_clamp (toString n) 23 (by decide)
    have h2 := onInput_clamp (toString n) 59 (by decide)
    have h3 := onInput_clamp (toString (-(n : Int))) 23 (by decide)
    have h4 := onInput_clamp (toString (-(n : Int))) 59 (by decide)
    rw [hn.1] at h1 h2
    rw [hn.2] at h3 h4
    have e1 : (-(n : Int)).toNat = 0 := by omega
    rw [e1] at h3 h4
    simp only [Int.toNat_ofNat] at h1 h2
    exact ⟨h1, h2, h3, h4⟩
  · intro hourText minuteText active
    have h1 : onInput hourText 0 23 = twoDigits (min (readField hourText).toNat 23) :=
      onInput_clamp hourText 23 (by decide)
    have h2 : onInput minuteText 0 59 = twoDigits (min (readField minuteText).toNat 59) :=
      onInput_clamp minuteText 59 (by decide)
    rw [h1, h2]
    rfl
  · intro hourEvents minuteEvents active
    obtain ⟨h, hh, hhv⟩ := fieldRun_range 23 (by decide) hourEvents "00" ⟨0, by decide, by decide⟩
    obtain ⟨m, hm, hmv⟩ :=
      fieldRun_range 59 (by decide) minuteEvents "00" ⟨0, by decide, by decide⟩
    simp only [Nat.cast_ofNat] at hhv hmv
    refine ⟨h, m, hh, hm, hhv, hmv, ?_, ?_⟩
    · rw [hhv, hmv]
      rfl
    · have := wellFormedTime_twoDigits h m (by omega) (by omega)
      rw [hpad, hpad] at this
      exact this
  · intro s n
    have h := saveAlarmCfg_timeout_clamp { s with timeoutValue := toString n }
    simp only [leadSecOf_nat] at h
    exact ⟨_, h⟩

/-! ## Theorems: status reconciliation -/

theorem fetchStatus_missing_epoch (v : LampView) (ds : Bool) (rgb : Option RgbJson)
    (hp : Option Nat) (now : Int) :
    (fetchStatus v (some ⟨none, ds, rgb, hp⟩) now).clock = v.clock := by
  unfold fetchStatus
  simp only []
  cases rgb with
  | none => rfl
  | some c =>
    obtain ⟨r, g, b, bri⟩ := c
    cases r <;> cases g <;> cases b <;> rfl

theorem fetchStatus_missing_rgb (v : LampView) (epoch : Option Int) (ds : Bool)
    (hp : Option Nat) (now : Int) :
    (fetchStatus v (some ⟨epoch, ds, none, hp⟩) now).lampColorText = v.lampColorText ∧
    (fetchStatus v (some ⟨epoch, ds, none, hp⟩) now).colorPicker = v.colorPicker ∧
    (fetchStatus v (some ⟨epoch, ds, none, hp⟩) now).brightnessText = v.brightnessText ∧
    (fetchStatus v (some ⟨epoch, ds, none, hp⟩) now).brightnessSlider = v.brightnessSlider ∧
    (fetchStatus v (some ⟨epoch, ds, none, hp⟩) now).hpLEDSlider = v.hpLEDSlider := by
  cases epoch <;> simp [fetchStatus]

theorem fetchStatus_missing_bri (v : LampView) (epoch : Option Int) (ds : Bool)
    (r g b : Nat) (hp : Option Nat) (now : Int) :
    (fetchStatus v (some ⟨epoch, ds, some ⟨some r, some g, some b, none⟩, hp⟩) now).brightnessText
        = "NaN%" ∧
    (fetchStatus v (some ⟨epoch, ds, some ⟨some r, some g, some b, none⟩, hp⟩)
        now).brightnessSlider = none := by
  cases epoch <;> simp [fetchStatus, percentText]

theorem fetchStatus_missing_hp (v : LampView) (epoch : Option Int) (ds : Bool)
    (r g b : Nat) (bri : Option Nat) (now : Int) :
    (fetchStatus v (some ⟨epoch, ds, some ⟨some r, some g, some b, bri⟩, none⟩)
        now).hpLEDSlider = none := by
  cases epoch <;> simp [fetchStatus]

/-- C15: evaluation of `fetchStatus` on snapshots with a missing member, from
the sample view (brightness 80 %, white level 60 %).  Without `rgb.bri` the
brightness text becomes `NaN%` and `NaN` is written to the brightness slider;
without `hp`, `NaN` is written to the white-level slider.  A snapshot without
`epoch` leaves the clock sample, and one without `rgb` leaves color, brightness
and white level, as they were. -/
theorem fetchStatus_writes_NaN :
    (fetchStatus sampleLampView
        (some ⟨some 1700000000, true, some ⟨some 255, some 0, some 0, none⟩, some 128⟩)
        9000).brightnessText = "NaN%" ∧
    (fetchStatus sampleLampView
        (some ⟨some 1700000000, true, some ⟨some 255, some 0, some 0, none⟩, some 128⟩)
        9000).brightnessSlider = none ∧
    (fetchStatus sampleLampView
        (some ⟨some 1700000000, true, some ⟨some 255, some 0, some 0, some 204⟩, none⟩)
        9000).hpLEDSlider = none ∧
    sampleLampView.brightnessText = "80%" ∧ sampleLampView.hpLEDSlider = some 60 ∧
    (fetchStatus sampleLampView
        (some ⟨none, true, some ⟨some 255, some 0, some 0, some 204⟩, some 128⟩)
        9000).clock = sampleLampView.clock ∧
    (fetchStatus sampleLampView (some ⟨some 1700000000, true, none, some 128⟩) 9000) =
      { sampleLampView with
        clock := ⟨some 1700000000, 9000⟩, applyDefaultDisabled := false,
        applyDefaultTitle := "" } := by
  decide

/-- C18: for every prior view and every well-formed snapshot (an epoch, `r`,
`g`, `b`, and `bri` and `hp` in `0..255`), `fetchStatus` writes `rgbToHex(r,g,b)` to
the color picker, the lamp circle and the color text, `toPercent bri`, which is
`round(bri/2.55)`, to the brightness slider and text, and `toPercent hp` to the
white-level slider; the view after the call is the same for every prior
view. -/
theorem fetchStatus_last_fetched_wins (v : LampView) (epoch : Int) (ds : Bool)
    (r g b bri hp : Nat) (now : Int) (hbri : bri ≤ 255) (hhp : hp ≤ 255) :
    (fetchStatus v (some ⟨some epoch, ds, some ⟨some r, some g, some b, some bri⟩, some hp⟩)
        now).lampColorText = rgbToHex r g b ∧
    (fetchStatus v (some ⟨some epoch, ds, some ⟨some r, some g, some b, some bri⟩, some hp⟩)
        now).colorPicker = rgbToHex r g b ∧
    (fetchStatus v (some ⟨some epoch, ds, some ⟨some r, some g, some b, some bri⟩, some hp⟩)
        now).lampCircleColor = rgbToHex r g b ∧
    (fetchStatus v (some ⟨some epoch, ds, some ⟨some r, some g, some b, some bri⟩, some hp⟩)
        now).brightnessSlider = some (toPercent bri) ∧
    (fetchStatus v (some ⟨some epoch, ds, some ⟨some r, some g, some b, some bri⟩, some hp⟩)
        now).brightnessText = toString (toPercent bri) ++ "%" ∧
    (fetchStatus v (some ⟨some epoch, ds, some ⟨some r, some g, some b, some bri⟩, some hp⟩)
        now).hpLEDSlider = some (toPercent hp) ∧
    toPercent bri = (40 * bri + 51) / 102 ∧ toPercent hp = (40 * hp + 51) / 102 ∧
    ∀ v1 : LampView,
      fetchStatus v1
          (some ⟨some epoch, ds, some ⟨some r, some g, some b, some bri⟩, some hp⟩) now =
        fetchStatus v
          (some ⟨some epoch, ds, some ⟨some r, some g, some b, some bri⟩, some hp⟩) now := by
  exact ⟨rfl, rfl, rfl, rfl, rfl, rfl, toPercent_eq_exact bri (by omega),
    toPercent_eq_exact hp (by omega), fun v1 => rfl⟩

/-- Witness for C18: on the sample view the snapshot with color (255, 0, 0),
`bri = 204` and `hp = 128` shows `#FF0000`, 80 % and 50 %. -/
theorem fetchStatus_last_fetched_wins_witness :
    204 ≤ 255 ∧ 128 ≤ 255 ∧
    (fetchStatus sampleLampView
        (some ⟨some 1700000000, true, some ⟨some 255, some 0, some 0, some 204⟩, some 128⟩)
        9000).lampColorText = rgbToHex 255 0 0 ∧
    rgbToHex 255 0 0 = "#FF0000" ∧ toPercent 204 = 80 ∧ toPercent 128 = 50 :=
  ⟨by decide, by decide,
    (fetchStatus_last_fetched_wins sampleLampView 1700000000 true 255 0 0 204 128 9000
      (by decide) (by decide)).1,
    by decide, by decide, by decide⟩

/-! ## Theorems: ramp seconds, alarm-list failure, party bursts -/

theorem saveAlarmCfg_lead (s : RampTest) :
    ∃ timeout, (saveAlarmCfg s).requests = s.requests ++
      [Request.alarmcfgSet (leadSecOf s.rampValue) s.ledActive s.buzzActive timeout] :=
  ⟨_, rfl⟩

/-- C17: evaluation of `saveAlarmCfg` on ramp inputs outside `10..7200`: with
`-5`, `0` and `99999` in the ramp field the request carries `lead = -5`,
`lead = 0` and `lead = 99999`, unchanged, while a timeout field of `500` is sent
as `120 * 60`. -/
theorem saveAlarmCfg_lead_unclamped :
    (saveAlarmCfg { sampleRampTest with rampValue := "-5", requests := [] }).requests =
      [Request.alarmcfgSet (-5) true false 600] ∧
    (saveAlarmCfg { sampleRampTest with rampValue := "0", requests := [] }).requests =
      [Request.alarmcfgSet 0 true false 600] ∧
    (saveAlarmCfg
        { sampleRampTest with rampValue := "99999", timeoutValue := "500", requests := [] }
      ).requests = [Request.alarmcfgSet 99999 true false 7200] := by
  decide

/-- C19, as stated, fails: with one alarm listed and the readout `08:00`,
`In 1h 0m`, a failed list request makes `renderAlarms` show the empty list and
makes both `renderAlarms` and the 60-second refresh show `--:--`,
`No upcoming alarms`. -/
theorem alarms_failure_not_stale :
    ¬ ((renderAlarms sampleAlarmsPage AlarmsResponse.failed 1 420).listed =
          sampleAlarmsPage.listed) ∧
    ¬ ((renderAlarms sampleAlarmsPage AlarmsResponse.failed 1 420).next =
          sampleAlarmsPage.next) ∧
    ¬ ((refreshNextAlarm sampleAlarmsPage AlarmsResponse.failed 1 420).next.nextTime =
          sampleAlarmsPage.next.nextTime) ∧
    ¬ ((refreshNextAlarm sampleAlarmsPage AlarmsResponse.failed 1 420).next.timeRemaining =
          sampleAlarmsPage.next.timeRemaining) := by
  decide

/-- C19, amended: a failed or unparsable list request is handled as an empty
list, without any error shown.  Whatever was displayed before, `renderAlarms`
then shows the placeholder of the empty list and the readout `--:--`,
`No upcoming alarms`; the 60-second refresh keeps the displayed list and resets
the readout to `--:--`, `No upcoming alarms`. -/
theorem alarms_failure_shows_empty (p : AlarmsPage) (cd : Fin 7) (ct : Nat) :
    fetchAlarms AlarmsResponse.failed = [] ∧
    renderAlarms p AlarmsResponse.failed cd ct =
      ⟨[], ⟨"--:--", "No upcoming alarms", "#999", "400"⟩⟩ ∧
    refreshNextAlarm p AlarmsResponse.failed cd ct =
      { p with next := ⟨"--:--", "No upcoming alarms", "#999", "400"⟩ } := by
  refine ⟨rfl, ?_, ?_⟩
  · simp [renderAlarms, fetchAlarms, computeNextAlarm, updateNextAlarm]
  · simp [refreshNextAlarm, fetchAlarms, computeNextAlarm, updateNextAlarm]

/-- C20, as stated, fails: two changes of the party speed slider 10 ms apart
send two `/party/set` requests, the first with the intermediate value 60. -/
theorem party_burst_not_debounced :
    ¬ ((partyRun samplePartyState
          [(0, PartyEdit.speed "60"), (10, PartyEdit.speed "70")]).2.length ≤ 1) ∧
    (partyRun samplePartyState [(0, PartyEdit.speed "60"), (10, PartyEdit.speed "70")]).2 =
      [Request.partySet false false 0 (some 60) (some 80) "rgb" (some 255) (some 0) (some 0),
       Request.partySet false false 0 (some 70) (some 80) "rgb" (some 255) (some 0) (some 0)] := by
  decide

theorem partyRun_append (st : PartyState) (edits : List (Int × PartyEdit))
    (e : Int × PartyEdit) :
    partyRun st (edits ++ [e]) =
      ((partyEdit (partyRun st edits).1 e.2).1,
        (partyRun st edits).2 ++ (partyEdit (partyRun st edits).1 e.2).2) := by
  simp [partyRun, List.foldl_append]

theorem partyEdit_requests (st : PartyState) (e : PartyEdit) :
    (partyEdit st e).2 = if e.sends then [sendPartyConfig (partyEdit st e).1] else [] := by
  cases e with
  | colorMode value checked => cases checked <;> rfl
  | switch checked => rfl
  | musicSwitch checked => rfl
  | effect idx => rfl
  | speed value => rfl
  | brightness value => rfl
  | singleColor value => rfl

theorem partyRun_length (st : PartyState) (edits : List (Int × PartyEdit)) :
    (partyRun st edits).2.length = (edits.filter (fun e => e.2.sends)).length := by
  induction edits using List.reverseRecOn with
  | nil => rfl
  | append_singleton es e ih =>
    rw [partyRun_append, List.length_append, ih, partyEdit_requests, List.filter_append,
      List.length_append]
    cases hs : e.2.sends <;> simp [hs]

theorem partyRun_foldl (es : List (Int × PartyEdit)) :
    ∀ (st : PartyState) (acc : List Request),
      es.foldl
        (fun a e => ((partyEdit a.1 e.2).1, a.2 ++ (partyEdit a.1 e.2).2)) (st, acc) =
        ((partyRun st es).1, acc ++ (partyRun st es).2) := by
  induction es with
  | nil => intro st acc; simp [partyRun]
  | cons e es ih =>
    intro st acc
    simp only [partyRun, List.foldl_cons, List.nil_append]
    rw [ih, ih _ (partyEdit st e.2).2]
    simp only [partyRun, List.append_assoc]

theorem partyRun_cons (st : PartyState) (e : Int × PartyEdit) (es : List (Int × PartyEdit)) :
    partyRun st (e :: es) =
      ((partyRun (partyEdit st e.2).1 es).1,
        (partyEdit st e.2).2 ++ (partyRun (partyEdit st e.2).1 es).2) := by
  have h := partyRun_foldl es (partyEdit st e.2).1 (partyEdit st e.2).2
  simp only [partyRun, List.foldl_cons, List.nil_append] at h ⊢
  exact h

theorem partyRun_concat (st : PartyState) (pre post : List (Int × PartyEdit)) :
    partyRun st (pre ++ post) =
      ((partyRun (partyRun st pre).1 post).1,
        (partyRun st pre).2 ++ (partyRun (partyRun st pre).1 post).2) := by
  have h := partyRun_foldl post (partyRun st pre).1 (partyRun st pre).2
  unfold partyRun at h ⊢
  rw [List.foldl_append]
  exact h

theorem partyRun_speed (st : PartyState) (vs : List (Int × String)) :
    (partyRun st (vs.map (fun v => (v.1, PartyEdit.speed v.2)))).2 =
      vs.map (fun v => Request.partySet st.partyOn st.music st.effect
        (parseInt10 (if v.2.data.isEmpty then "50" else v.2)) st.bri st.mode
        (hexToRgb st.color).r (hexToRgb st.color).g (hexToRgb st.color).b) := by
  induction vs generalizing st with
  | nil => rfl
  | cons v vs ih =>
    rw [List.map_cons, partyRun_cons, ih]
    rfl

theorem getElem_append_cons_length {α : Type} (l r : List α) (a : α) :
    (l ++ a :: r)[l.length]? = some a := by
  induction l with
  | nil => simp
  | cons x xs ih => simpa using ih

/-- C20, amended: party edits are pushed at once, not debounced.  In every
sequence of party events, whatever their times, each event whose handler sends
(all but a radio event on an input that is not checked) adds its own
`/party/set` request: the requests are as many as those events, the request of
an event `e` stands at the position given by the sending events before it and
is built from the party state right after `e`, and the requests sent before `e`
stay as they were.  After a last event that sends, the last request carries the
final state.  For a burst of changes of the speed slider the requests are, in
order, the party state with each value of the burst, intermediate values
included. -/
theorem party_edits_push_each (st : PartyState) (pre post : List (Int × PartyEdit))
    (e : Int × PartyEdit) (hs : e.2.sends = true) :
    (partyRun st (pre ++ e :: post)).2.length =
      ((pre ++ e :: post).filter (fun x => x.2.sends)).length ∧
    (partyRun st (pre ++ e :: post)).2[(pre.filter (fun x => x.2.sends)).length]? =
      some (sendPartyConfig (partyRun st (pre ++ [e])).1) ∧
    (partyRun st (pre ++ [e])).1 = (partyEdit (partyRun st pre).1 e.2).1 ∧
    (partyRun st (pre ++ e :: post)).2.take (pre.filter (fun x => x.2.sends)).length =
      (partyRun st pre).2 ∧
    (partyRun st (pre ++ [e])).2.getLast? = some (sendPartyConfig (partyRun st (pre ++ [e])).1) ∧
    (∀ vs : List (Int × String),
      (partyRun st (vs.map (fun v => (v.1, PartyEdit.speed v.2)))).2 =
        vs.map (fun v => Request.partySet st.partyOn st.music st.effect
          (parseInt10 (if v.2.data.isEmpty then "50" else v.2)) st.bri st.mode
          (hexToRgb st.color).r (hexToRgb st.color).g (hexToRgb st.color).b)) := by
  have hlen := partyRun_length st pre
  have hreq := partyEdit_requests (partyRun st pre).1 e.2
  rw [hs, if_pos rfl] at hreq
  have hone : partyRun st (pre ++ [e]) =
      ((partyEdit (partyRun st pre).1 e.2).1,
        (partyRun st pre).2 ++ [sendPartyConfig (partyEdit (partyRun st pre).1 e.2).1]) := by
    rw [partyRun_append, hreq]
  have hall : (partyRun st (pre ++ e :: post)).2 =
      (partyRun st pre).2 ++ (sendPartyConfig (partyEdit (partyRun st pre).1 e.2).1 ::
        (partyRun (partyEdit (partyRun st pre).1 e.2).1 post).2) := by
    rw [partyRun_concat, partyRun_cons, hreq]
    rfl
  refine ⟨partyRun_length st _, ?_, ?_, ?_, ?_, partyRun_speed st⟩
  · rw [hall, hone, ← hlen]
    exact getElem_append_cons_length _ _ _
  · rw [hone]
  · rw [hall, ← hlen]
    simp
  · rw [hone]
    simp

/-- Witness for C20: three slider changes within 20 ms send three requests; the
one of the second change stands at position 1 and carries its value 70, and the
last one carries the last value 90. -/
theorem party_edits_push_each_witness :
    (partyRun samplePartyState
        [(0, PartyEdit.speed "60"), (10, PartyEdit.speed "70"), (20, PartyEdit.speed "90")]
      ).2.length = 3 ∧
    (partyRun samplePartyState
        [(0, PartyEdit.speed "60"), (10, PartyEdit.speed "70"), (20, PartyEdit.speed "90")]
      ).2[1]? =
      some (Request.partySet false false 0 (some 70) (some 80) "rgb" (some 255) (some 0)
        (some 0)) ∧
    (partyRun samplePartyState
        [(0, PartyEdit.speed "60"), (10, PartyEdit.speed "70"), (20, PartyEdit.speed "90")]).2 =
      [Request.partySet false false 0 (some 60) (some 80) "rgb" (some 255) (some 0) (some 0),
        Request.partySet false false 0 (some 70) (some 80) "rgb" (some 255) (some 0) (some 0),
        Request.partySet false false 0 (some 90) (some 80) "rgb" (some 255) (some 0) (some 0)] :=
  have h := party_edits_push_each samplePartyState [(0, PartyEdit.speed "60")]
    [(20, PartyEdit.speed "90")] (10, PartyEdit.speed "70") rfl
  ⟨h.1, h.2.1, h.2.2.2.2.2 [(0, "60"), (10, "70"), (20, "90")]⟩

/-! ## Theorems: the rounding model -/

theorem log2Fuel_spec (fuel : Nat) :
    ∀ n, 0 < n → n ≤ fuel → 2 ^ log2Fuel fuel n ≤ n ∧ n < 2 ^ (log2Fuel fuel n + 1) := by
  induction fuel with
  | zero => intro n h0 h1; omega
  | succ fuel ih =>
    intro n h0 h1
    unfold log2Fuel
    by_cases h2 : n < 2
    · simp only [h2, if_true]
      omega
    · simp only [h2, if_false]
      obtain ⟨ha, hb⟩ := ih (n / 2) (by omega) (by omega)
      simp only [pow_succ] at hb ⊢
      constructor <;> omega

theorem log2_spec (n : Nat) (h : 0 < n) : 2 ^ log2 n ≤ n ∧ n < 2 ^ (log2 n + 1) :=
  log2Fuel_spec n n h (le_refl n)

theorem two_zpow_toNat (z : Int) :
    (2 : ℚ) ^ z = (2 : ℚ) ^ z.toNat / (2 : ℚ) ^ (-z).toNat := by
  rcases le_total 0 z with h | h
  · have h1 : (-z).toNat = 0 := by omega
    have h2 : z = (z.toNat : Int) := by omega
    rw [h1, pow_zero, div_one]
    conv_lhs => rw [h2]
    exact zpow_natCast _ _
  · have h1 : z.toNat = 0 := by omega
    have h2 : z = -((-z).toNat : Int) := by omega
    rw [h1, pow_zero, one_div]
    conv_lhs => rw [h2]
    rw [zpow_neg, zpow_natCast]

theorem floorLog2_spec (n d : Nat) (hn : 0 < n) (hd : 0 < d) :
    (2 : ℚ) ^ floorLog2 n d ≤ (n : ℚ) / d ∧ (n : ℚ) / d < (2 : ℚ) ^ (floorLog2 n d + 1) := by
  obtain ⟨hn1, hn2⟩ := log2_spec n hn
  obtain ⟨hd1, hd2⟩ := log2_spec d hd
  have hdq : (0 : ℚ) < d := by exact_mod_cast hd
  have hn1q : (2 : ℚ) ^ (log2 n : Int) ≤ n := by rw [zpow_natCast]; exact_mod_cast hn1
  have hn2q : (n : ℚ) < (2 : ℚ) ^ ((log2 n : Int) + 1) := by
    have : (n : ℚ) < (2 : ℚ) ^ (log2 n + 1) := by exact_mod_cast hn2
    rw [← zpow_natCast] at this
    simpa using this
  have hd1q : (2 : ℚ) ^ (log2 d : Int) ≤ d := by rw [zpow_natCast]; exact_mod_cast hd1
  have hd2q : (d : ℚ) < (2 : ℚ) ^ ((log2 d : Int) + 1) := by
    have : (d : ℚ) < (2 : ℚ) ^ (log2 d + 1) := by exact_mod_cast hd2
    rw [← zpow_natCast] at this
    simpa using this
  have h2 : (2 : ℚ) ≠ 0 := by norm_num
  have hpos : ∀ z : Int, (0 : ℚ) < (2 : ℚ) ^ z := fun z => zpow_pos (by norm_num) z
  unfold floorLog2
  simp only []
  generalize hk : (log2 n : Int) - (log2 d : Int) = k
  have htest : (2 ^ k.toNat * d ≤ n * 2 ^ (-k).toNat) ↔ (2 : ℚ) ^ k ≤ (n : ℚ) / d := by
    rw [two_zpow_toNat k, div_le_div_iff₀ (pow_pos (by norm_num) _) hdq]
    constructor
    · intro h; exact_mod_cast h
    · intro h; exact_mod_cast h
  by_cases ht : 2 ^ k.toNat * d ≤ n * 2 ^ (-k).toNat
  · simp only [ht, if_true]
    refine ⟨htest.mp ht, ?_⟩
    have e1 : (2 : ℚ) ^ (k + 1) = (2 : ℚ) ^ ((log2 n : Int) + 1) / (2 : ℚ) ^ (log2 d : Int) := by
      rw [← zpow_sub₀ h2]; congr 1; omega
    rw [e1, div_lt_div_iff₀ hdq (hpos _)]
    calc (n : ℚ) * (2 : ℚ) ^ (log2 d : Int)
        < (2 : ℚ) ^ ((log2 n : Int) + 1) * (2 : ℚ) ^ (log2 d : Int) :=
          mul_lt_mul_of_pos_right hn2q (hpos _)
      _ ≤ (2 : ℚ) ^ ((log2 n : Int) + 1) * d :=
          mul_le_mul_of_nonneg_left hd1q (le_of_lt (hpos _))
  · simp only [ht, if_false]
    have hlt : (n : ℚ) / d < (2 : ℚ) ^ k := lt_of_not_le (fun h => ht (htest.mpr h))
    refine ⟨?_, by simpa using hlt⟩
    have e1 : (2 : ℚ) ^ (k - 1) = (2 : ℚ) ^ (log2 n : Int) / (2 : ℚ) ^ ((log2 d : Int) + 1) := by
      rw [← zpow_sub₀ h2]; congr 1; omega
    rw [e1, div_le_div_iff₀ (hpos _) hdq]
    calc (2 : ℚ) ^ (log2 n : Int) * d
        ≤ (n : ℚ) * d := mul_le_mul_of_nonneg_right hn1q (le_of_lt hdq)
      _ ≤ (n : ℚ) * (2 : ℚ) ^ ((log2 d : Int) + 1) :=
          mul_le_mul_of_nonneg_left (le_of_lt hd2q) (by positivity)

theorem roundHalfEven_bounds (n d : Nat) :
    n / d ≤ roundHalfEven n d ∧ roundHalfEven n d ≤ n / d + 1 := by
  unfold roundHalfEven
  simp only []
  split
  · omega
  · split
    · omega
    · split <;> omega

theorem roundHalfEven_le_of_le_mul (n d k : Nat) (hd : 0 < d) (h : n ≤ k * d) :
    roundHalfEven n d ≤ k := by
  have hq : n / d ≤ k := by
    rw [Nat.div_le_iff_le_mul_add_pred hd]
    have hc : d * k = k * d := Nat.mul_comm _ _
    omega
  rcases Nat.lt_or_eq_of_le hq with hlt | heq
  · have := (roundHalfEven_bounds n d).2
    omega
  · have hr : n % d = 0 := by
      have h1 := Nat.div_add_mod n d
      rw [heq] at h1
      have h2 : d * k = k * d := Nat.mul_comm _ _
      omega
    unfold roundHalfEven
    simp only [hr]
    have : 2 * 0 < d := by omega
    simp only [this, if_true]
    omega

theorem roundHalfEven_ge_of_mul_le (n d k : Nat) (hd : 0 < d) (h : k * d ≤ n) :
    k ≤ roundHalfEven n d := by
  have hq : k ≤ n / d := (Nat.le_div_iff_mul_le hd).mpr h
  have := (roundHalfEven_bounds n d).1
  omega

theorem roundHalfEven_mono (n1 n2 d : Nat) (h : n1 ≤ n2) :
    roundHalfEven n1 d ≤ roundHalfEven n2 d := by
  have hq : n1 / d ≤ n2 / d := Nat.div_le_div_right h
  rcases Nat.lt_or_eq_of_le hq with hlt | heq
  · have h1 := (roundHalfEven_bounds n1 d).2
    have h2 := (roundHalfEven_bounds n2 d).1
    omega
  · have hr : n1 % d ≤ n2 % d := by
      have h1 := Nat.div_add_mod n1 d
      have h2 := Nat.div_add_mod n2 d
      rw [heq] at h1
      omega
    unfold roundHalfEven
    simp only [heq]
    split_ifs <;> omega

theorem binary64_eq (n d : Nat) (hn : 0 < n) (hd : 0 < d) :
    binary64 ⟨n, d⟩ = ⟨mant n d * 2 ^ (expo n d).toNat, 2 ^ (-(expo n d)).toNat⟩ := by
  have h : ¬ (n = 0 ∨ d = 0) := by omega
  simp only [binary64, h, if_false]
  rfl

theorem scaled_bounds (n d : Nat) (hn : 0 < n) (hd : 0 < d) :
    2 ^ 52 * (d * 2 ^ (expo n d).toNat) ≤ n * 2 ^ (-(expo n d)).toNat ∧
    n * 2 ^ (-(expo n d)).toNat < 2 ^ 53 * (d * 2 ^ (expo n d).toNat) := by
  obtain ⟨h1, h2⟩ := floorLog2_spec n d hn hd
  have hdq : (0 : ℚ) < d := by exact_mod_cast hd
  have h20 : (2 : ℚ) ≠ 0 := by norm_num
  have hE : floorLog2 n d = 52 + expo n d := by unfold expo; omega
  have hE1 : floorLog2 n d + 1 = 53 + expo n d := by unfold expo; omega
  rw [hE, zpow_add₀ h20, two_zpow_toNat (expo n d)] at h1
  rw [hE1, zpow_add₀ h20, two_zpow_toNat (expo n d)] at h2
  have hb : (0 : ℚ) < (2 : ℚ) ^ (-(expo n d)).toNat := pow_pos (by norm_num) _
  have e52 : (2 : ℚ) ^ (52 : Int) = (2 : ℚ) ^ (52 : Nat) := zpow_natCast _ _
  have e53 : (2 : ℚ) ^ (53 : Int) = (2 : ℚ) ^ (53 : Nat) := zpow_natCast _ _
  rw [e52, ← mul_div_assoc, div_le_div_iff₀ hb hdq] at h1
  rw [e53, ← mul_div_assoc, div_lt_div_iff₀ hdq hb] at h2
  constructor
  · have : ((2 ^ 52 * (d * 2 ^ (expo n d).toNat) : Nat) : ℚ) ≤
        ((n * 2 ^ (-(expo n d)).toNat : Nat) : ℚ) := by
      push_cast
      linarith
    exact_mod_cast this
  · have : ((n * 2 ^ (-(expo n d)).toNat : Nat) : ℚ) <
        ((2 ^ 53 * (d * 2 ^ (expo n d).toNat) : Nat) : ℚ) := by
      push_cast
      linarith
    exact_mod_cast this

theorem mant_bounds (n d : Nat) (hn : 0 < n) (hd : 0 < d) :
    2 ^ 52 ≤ mant n d ∧ mant n d ≤ 2 ^ 53 := by
  obtain ⟨h1, h2⟩ := scaled_bounds n d hn hd
  have hD : 0 < d * 2 ^ (expo n d).toNat := Nat.mul_pos hd (pow_pos (by norm_num) _)
  exact ⟨roundHalfEven_ge_of_mul_le _ _ _ hD h1,
    roundHalfEven_le_of_le_mul _ _ _ hD (le_of_lt h2)⟩

theorem binary64_toRat (n d : Nat) (hn : 0 < n) (hd : 0 < d) :
    (binary64 ⟨n, d⟩).toRat = (mant n d : ℚ) * (2 : ℚ) ^ expo n d := by
  rw [binary64_eq n d hn hd, two_zpow_toNat (expo n d)]
  simp only [Frac.toRat]
  push_cast
  rw [mul_div_assoc]

theorem binary64_zero (d : Nat) : binary64 ⟨0, d⟩ = ⟨0, 1⟩ := by
  simp [binary64]

theorem expo_mono (n1 n2 d : Nat) (hn1 : 0 < n1) (hd : 0 < d) (h : n1 ≤ n2) :
    expo n1 d ≤ expo n2 d := by
  obtain ⟨a1, -⟩ := floorLog2_spec n1 d hn1 hd
  obtain ⟨-, b2⟩ := floorLog2_spec n2 d (by omega) hd
  have hdq : (0 : ℚ) < d := by exact_mod_cast hd
  have hq : (n1 : ℚ) / d ≤ (n2 : ℚ) / d :=
    div_le_div_of_nonneg_right (by exact_mod_cast h) (le_of_lt hdq)
  have hlt : (2 : ℚ) ^ floorLog2 n1 d < (2 : ℚ) ^ (floorLog2 n2 d + 1) :=
    lt_of_le_of_lt (le_trans a1 hq) b2
  rw [zpow_lt_zpow_iff_right₀ (by norm_num : (1 : ℚ) < 2)] at hlt
  unfold expo
  omega

theorem binary64_mono (n1 n2 d : Nat) (hd : 0 < d) (h : n1 ≤ n2) :
    (binary64 ⟨n1, d⟩).toRat ≤ (binary64 ⟨n2, d⟩).toRat := by
  rcases Nat.eq_zero_or_pos n1 with h0 | hn1
  · subst h0
    rw [binary64_zero]
    have : (0 : ℚ) ≤ (binary64 ⟨n2, d⟩).toRat := by
      unfold Frac.toRat
      positivity
    simpa [Frac.toRat] using this
  · have hn2 : 0 < n2 := by omega
    rw [binary64_toRat n1 d hn1 hd, binary64_toRat n2 d hn2 hd]
    have hpos : ∀ z : Int, (0 : ℚ) < (2 : ℚ) ^ z := fun z => zpow_pos (by norm_num) z
    rcases lt_or_eq_of_le (expo_mono n1 n2 d hn1 hd h) with hlt | heq
    · obtain ⟨-, hm1⟩ := mant_bounds n1 d hn1 hd
      obtain ⟨hm2, -⟩ := mant_bounds n2 d hn2 hd
      have e52 : (2 : ℚ) ^ (52 : Int) = (2 : ℚ) ^ (52 : Nat) := zpow_natCast _ _
      have e53 : (2 : ℚ) ^ (53 : Int) = (2 : ℚ) ^ (53 : Nat) := zpow_natCast _ _
      have hm1q : (mant n1 d : ℚ) ≤ (2 : ℚ) ^ (53 : Int) := by
        rw [e53]; exact_mod_cast hm1
      have hm2q : (2 : ℚ) ^ (52 : Int) ≤ (mant n2 d : ℚ) := by
        rw [e52]; exact_mod_cast hm2
      have h20 : (2 : ℚ) ≠ 0 := by norm_num
      calc (mant n1 d : ℚ) * (2 : ℚ) ^ expo n1 d
          ≤ (2 : ℚ) ^ (53 : Int) * (2 : ℚ) ^ expo n1 d :=
            mul_le_mul_of_nonneg_right hm1q (le_of_lt (hpos _))
        _ = (2 : ℚ) ^ (53 + expo n1 d) := (zpow_add₀ h20 _ _).symm
        _ ≤ (2 : ℚ) ^ (52 + expo n2 d) :=
            zpow_le_zpow_right₀ (by norm_num) (by omega)
        _ = (2 : ℚ) ^ (52 : Int) * (2 : ℚ) ^ expo n2 d := zpow_add₀ h20 _ _
        _ ≤ (mant n2 d : ℚ) * (2 : ℚ) ^ expo n2 d :=
            mul_le_mul_of_nonneg_right hm2q (le_of_lt (hpos _))
    · have hm : mant n1 d ≤ mant n2 d := by
        unfold mant
        rw [heq]
        exact roundHalfEven_mono _ _ _ (Nat.mul_le_mul_right _ h)
      rw [heq]
      exact mul_le_mul_of_nonneg_right (by exact_mod_cast hm) (le_of_lt (hpos _))

theorem binary64_den_pos (x : Frac) : 0 < (binary64 x).den := by
  unfold binary64
  split
  · exact Nat.one_pos
  · exact pow_pos (by norm_num) _

theorem floorLog2_neg (e d : Nat) (he : 0 < e) (hed : e < d) : floorLog2 e d < 0 := by
  obtain ⟨h1, -⟩ := floorLog2_spec e d he (by omega)
  have hdq : (0 : ℚ) < d := by exact_mod_cast (by omega : 0 < d)
  have hlt : (e : ℚ) / d < 1 := by
    rw [div_lt_one hdq]
    exact_mod_cast hed
  have h2 : (2 : ℚ) ^ floorLog2 e d < (2 : ℚ) ^ (0 : Int) := by
    rw [zpow_zero]
    exact lt_of_le_of_lt h1 hlt
  exact (zpow_lt_zpow_iff_right₀ (by norm_num : (1 : ℚ) < 2)).mp h2

theorem floorLog2_nonneg (e d : Nat) (hd : 0 < d) (hde : d ≤ e) : 0 ≤ floorLog2 e d := by
  obtain ⟨-, h2⟩ := floorLog2_spec e d (by omega) hd
  have hdq : (0 : ℚ) < d := by exact_mod_cast hd
  have hge : (1 : ℚ) ≤ (e : ℚ) / d := by
    rw [one_le_div hdq]
    exact_mod_cast hde
  have h3 : (2 : ℚ) ^ (0 : Int) < (2 : ℚ) ^ (floorLog2 e d + 1) := by
    rw [zpow_zero]
    exact lt_of_le_of_lt hge h2
  have := (zpow_lt_zpow_iff_right₀ (by norm_num : (1 : ℚ) < 2)).mp h3
  omega

theorem binary64_lt_one (e d : Nat) (he : 0 < e) (hed : e < d) (hbig : d ≤ 2 ^ 53) :
    mant e d * 2 ^ (expo e d).toNat < 2 ^ (-(expo e d)).toNat := by
  have hneg := floorLog2_neg e d he hed
  have hx : expo e d ≤ -53 := by unfold expo; omega
  have ha : (expo e d).toNat = 0 := by omega
  rw [ha, pow_zero, Nat.mul_one]
  rcases lt_or_eq_of_le hx with hlt | heq
  · obtain ⟨-, hm⟩ := mant_bounds e d he (by omega)
    have hb : 54 ≤ (-(expo e d)).toNat := by omega
    have hp : 2 ^ 54 ≤ 2 ^ (-(expo e d)).toNat := Nat.pow_le_pow_right (by norm_num) hb
    have : (2 : Nat) ^ 53 < 2 ^ 54 := by norm_num
    omega
  · have hb : (-(expo e d)).toNat = 53 := by omega
    have hm : mant e d ≤ 2 ^ 53 - 1 := by
      unfold mant
      rw [ha, hb, pow_zero, Nat.mul_one]
      apply roundHalfEven_le_of_le_mul _ _ _ (by omega)
      norm_num at hbig ⊢
      omega
    rw [hb]
    have : 0 < (2 : Nat) ^ 53 := by norm_num
    omega

theorem binary64_ge_one_iff (e d : Nat) (hd : 0 < d) (hbig : d ≤ 2 ^ 53) :
    (binary64 ⟨e, d⟩).den ≤ (binary64 ⟨e, d⟩).num ↔ d ≤ e := by
  rcases Nat.eq_zero_or_pos e with h0 | he
  · subst h0
    rw [binary64_zero]
    simp only []
    omega
  · rw [binary64_eq e d he hd]
    simp only []
    constructor
    · intro h
      by_contra hlt
      have := binary64_lt_one e d he (by omega) hbig
      omega
    · intro hde
      have hnn := floorLog2_nonneg e d hd hde
      obtain ⟨hm, -⟩ := mant_bounds e d he hd
      have hb : (-(expo e d)).toNat ≤ 52 := by unfold expo; omega
      have hp : 2 ^ (-(expo e d)).toNat ≤ 2 ^ 52 := Nat.pow_le_pow_right (by norm_num) hb
      have ha : 1 ≤ 2 ^ (expo e d).toNat := Nat.one_le_two_pow
      calc 2 ^ (-(expo e d)).toNat ≤ mant e d := le_trans hp hm
        _ = mant e d * 1 := (Nat.mul_one _).symm
        _ ≤ mant e d * 2 ^ (expo e d).toNat := Nat.mul_le_mul_left _ ha

theorem roundHalfEven_near (n d : Nat) (hd : 0 < d) :
    2 * roundHalfEven n d * d ≤ 2 * n + d ∧ 2 * n ≤ 2 * roundHalfEven n d * d + d := by
  have h1 := Nat.div_add_mod n d
  have h2 := Nat.mod_lt n hd
  have hc : d * (n / d) = n / d * d := Nat.mul_comm _ _
  have e0 : 2 * (n / d) * d = 2 * (n / d * d) := Nat.mul_assoc _ _ _
  have e1 : 2 * (n / d + 1) * d = 2 * (n / d * d) + 2 * d := by ring
  unfold roundHalfEven
  simp only []
  split_ifs <;> simp only [e0, e1] <;> omega

theorem binary64_near (n d : Nat) (hn : 0 < n) (hd : 0 < d) :
    |(binary64 ⟨n, d⟩).toRat - (n : ℚ) / d| ≤ (n : ℚ) / d * (2 : ℚ) ^ (-53 : Int) := by
  have hdq : (0 : ℚ) < d := by exact_mod_cast hd
  have h20 : (2 : ℚ) ≠ 0 := by norm_num
  have hpos : ∀ z : Int, (0 : ℚ) < (2 : ℚ) ^ z := fun z => zpow_pos (by norm_num) z
  obtain ⟨hlow, -⟩ := floorLog2_spec n d hn hd
  have hD : 0 < d * 2 ^ (expo n d).toNat := Nat.mul_pos hd (pow_pos (by norm_num) _)
  obtain ⟨hr1, hr2⟩ :=
    roundHalfEven_near (n * 2 ^ (-(expo n d)).toNat) (d * 2 ^ (expo n d).toNat) hD
  have hr1q : 2 * (mant n d : ℚ) * (d * (2 : ℚ) ^ (expo n d).toNat) ≤
      2 * (n * (2 : ℚ) ^ (-(expo n d)).toNat) + d * (2 : ℚ) ^ (expo n d).toNat := by
    exact_mod_cast hr1
  have hr2q : 2 * (n * (2 : ℚ) ^ (-(expo n d)).toNat) ≤
      2 * (mant n d : ℚ) * (d * (2 : ℚ) ^ (expo n d).toNat) +
        d * (2 : ℚ) ^ (expo n d).toNat := by
    exact_mod_cast hr2
  have hA : (0 : ℚ) < (2 : ℚ) ^ (expo n d).toNat := pow_pos (by norm_num) _
  have hB : (0 : ℚ) < (2 : ℚ) ^ (-(expo n d)).toNat := pow_pos (by norm_num) _
  have hhalf : |(binary64 ⟨n, d⟩).toRat - (n : ℚ) / d| ≤ (2 : ℚ) ^ expo n d / 2 := by
    rw [binary64_toRat n d hn hd, two_zpow_toNat (expo n d), abs_le]
    constructor
    · rw [neg_le_sub_iff_le_add, div_le_iff₀ hdq]
      have e1 : ((mant n d : ℚ) * ((2 : ℚ) ^ (expo n d).toNat / (2 : ℚ) ^ (-(expo n d)).toNat) +
          (2 : ℚ) ^ (expo n d).toNat / (2 : ℚ) ^ (-(expo n d)).toNat / 2) * d =
          (2 * (mant n d : ℚ) * (d * (2 : ℚ) ^ (expo n d).toNat) +
            d * (2 : ℚ) ^ (expo n d).toNat) / (2 * (2 : ℚ) ^ (-(expo n d)).toNat) := by
        field_simp
        ring
      rw [e1, le_div_iff₀ (by positivity)]
      linarith
    · rw [sub_le_iff_le_add, ← sub_le_iff_le_add', le_div_iff₀ hdq]
      have e1 : ((mant n d : ℚ) * ((2 : ℚ) ^ (expo n d).toNat / (2 : ℚ) ^ (-(expo n d)).toNat) -
          (2 : ℚ) ^ (expo n d).toNat / (2 : ℚ) ^ (-(expo n d)).toNat / 2) * d =
          (2 * (mant n d : ℚ) * (d * (2 : ℚ) ^ (expo n d).toNat) -
            d * (2 : ℚ) ^ (expo n d).toNat) / (2 * (2 : ℚ) ^ (-(expo n d)).toNat) := by
        field_simp
        ring
      rw [e1, div_le_iff₀ (by positivity)]
      linarith
  have hE : floorLog2 n d = expo n d + 53 + (-1) := by unfold expo; omega
  have hstep : (2 : ℚ) ^ expo n d / 2 = (2 : ℚ) ^ floorLog2 n d * (2 : ℚ) ^ (-53 : Int) := by
    rw [hE, zpow_add₀ h20, zpow_add₀ h20]
    have e53 : (2 : ℚ) ^ (53 : Int) * (2 : ℚ) ^ (-53 : Int) = 1 := by
      rw [← zpow_add₀ h20]; norm_num
    have em1 : (2 : ℚ) ^ (-1 : Int) = 1 / 2 := by norm_num
    rw [em1]
    calc (2 : ℚ) ^ expo n d / 2
        = (2 : ℚ) ^ expo n d * ((2 : ℚ) ^ (53 : Int) * (2 : ℚ) ^ (-53 : Int)) * (1 / 2) := by
          rw [e53]; ring
      _ = (2 : ℚ) ^ expo n d * (2 : ℚ) ^ (53 : Int) * (1 / 2) * (2 : ℚ) ^ (-53 : Int) := by ring
  calc |(binary64 ⟨n, d⟩).toRat - (n : ℚ) / d|
      ≤ (2 : ℚ) ^ expo n d / 2 := hhalf
    _ = (2 : ℚ) ^ floorLog2 n d * (2 : ℚ) ^ (-53 : Int) := hstep
    _ ≤ (n : ℚ) / d * (2 : ℚ) ^ (-53 : Int) :=
        mul_le_mul_of_nonneg_right hlow (le_of_lt (hpos _))

/-! ## Theorems: progress of the wake-ramp test -/

theorem progressFrac_eq (e d : Nat) : progressFrac e d = Frac.min1 (binary64 ⟨e, d⟩) := by
  simp [progressFrac, jsDiv, Frac.ofNat]

theorem progressFrac_range (e d : Nat) :
    0 < (progressFrac e d).den ∧ (progressFrac e d).num ≤ (progressFrac e d).den := by
  rw [progressFrac_eq]
  unfold Frac.min1
  split
  · exact ⟨Nat.one_pos, le_refl _⟩
  · constructor <;> omega

theorem progressFrac_full_iff (e d : Nat) (hd : 0 < d) (hbig : d ≤ 2 ^ 53) :
    ((progressFrac e d).den ≤ (progressFrac e d).num ↔ d ≤ e) ∧
    ((progressFrac e d).num = (progressFrac e d).den ↔ d ≤ e) ∧
    (d ≤ e → progressFrac e d = ⟨1, 1⟩) := by
  have hiff := binary64_ge_one_iff e d hd hbig
  rw [progressFrac_eq]
  unfold Frac.min1
  by_cases h : (binary64 ⟨e, d⟩).den ≤ (binary64 ⟨e, d⟩).num
  · have hde := hiff.mp h
    rw [if_pos h]
    exact ⟨⟨fun _ => hde, fun _ => le_refl _⟩, ⟨fun _ => hde, fun _ => rfl⟩, fun _ => rfl⟩
  · have hde : ¬ d ≤ e := fun hc => h (hiff.mpr hc)
    rw [if_neg h]
    exact ⟨⟨fun hc => absurd hc h, fun hc => absurd hc hde⟩,
      ⟨fun hc => absurd (le_of_eq hc.symm) h, fun hc => absurd hc hde⟩,
      fun hc => absurd hc hde⟩

theorem progressFrac_mono (e1 e2 d : Nat) (hd : 0 < d) (h : e1 ≤ e2) :
    (progressFrac e1 d).num * (progressFrac e2 d).den ≤
      (progressFrac e2 d).num * (progressFrac e1 d).den := by
  have hm := binary64_mono e1 e2 d hd h
  have hp1 := binary64_den_pos ⟨e1, d⟩
  have hp2 := binary64_den_pos ⟨e2, d⟩
  have hq1 : (0 : ℚ) < ((binary64 ⟨e1, d⟩).den : ℚ) := by exact_mod_cast hp1
  have hq2 : (0 : ℚ) < ((binary64 ⟨e2, d⟩).den : ℚ) := by exact_mod_cast hp2
  have hcross : (binary64 ⟨e1, d⟩).num * (binary64 ⟨e2, d⟩).den ≤
      (binary64 ⟨e2, d⟩).num * (binary64 ⟨e1, d⟩).den := by
    unfold Frac.toRat at hm
    rw [div_le_div_iff₀ hq1 hq2] at hm
    exact_mod_cast hm
  rw [progressFrac_eq, progressFrac_eq]
  unfold Frac.min1
  by_cases h1 : (binary64 ⟨e1, d⟩).den ≤ (binary64 ⟨e1, d⟩).num
  · have h2 : (binary64 ⟨e2, d⟩).den ≤ (binary64 ⟨e2, d⟩).num := by
      by_contra hc
      have hlt : (binary64 ⟨e2, d⟩).num < (binary64 ⟨e2, d⟩).den := by omega
      have a1 : (binary64 ⟨e1, d⟩).den * (binary64 ⟨e2, d⟩).den ≤
          (binary64 ⟨e1, d⟩).num * (binary64 ⟨e2, d⟩).den := Nat.mul_le_mul_right _ h1
      have a2 : (binary64 ⟨e2, d⟩).num * (binary64 ⟨e1, d⟩).den <
          (binary64 ⟨e2, d⟩).den * (binary64 ⟨e1, d⟩).den :=
        Nat.mul_lt_mul_of_pos_right hlt hp1
      have a3 : (binary64 ⟨e2, d⟩).den * (binary64 ⟨e1, d⟩).den =
          (binary64 ⟨e1, d⟩).den * (binary64 ⟨e2, d⟩).den := Nat.mul_comm _ _
      omega
    simp only [h1, h2, if_true]
    exact le_refl _
  · by_cases h2 : (binary64 ⟨e2, d⟩).den ≤ (binary64 ⟨e2, d⟩).num
    · simp only [h1, h2, if_true, if_false]
      omega
    · simp only [h1, h2, if_false]
      exact hcross

theorem progressFrac_near (e d : Nat) (he : 0 < e) (hed : e < d) (hbig : d ≤ 2 ^ 53) :
    |(progressFrac e d).toRat - (e : ℚ) / d| ≤ (e : ℚ) / d * (2 : ℚ) ^ (-53 : Int) := by
  have hiff := binary64_ge_one_iff e d (by omega) hbig
  have hnot : ¬ (binary64 ⟨e, d⟩).den ≤ (binary64 ⟨e, d⟩).num := fun hc => by
    have := hiff.mp hc
    omega
  rw [progressFrac_eq]
  unfold Frac.min1
  simp only [hnot, if_false]
  exact binary64_near e d he (by omega)

theorem widthOf_full : widthOf ⟨1, 1⟩ = 1000 := by decide

theorem progressTick_before (s : RampTest) (id : Nat) (secs : Nat) (t0 t : Int)
    (stops : List Int) (hs : 0 < secs) (hbig : secs * 1000 ≤ 2 ^ 53)
    (h : Ticking s id ((secs : Int) * 1000) t0 stops) (ht0 : t0 ≤ t)
    (hlt : t - t0 < (secs : Int) * 1000) :
    Ticking (intervalFires s id t) id ((secs : Int) * 1000) t0 stops ∧
    (intervalFires s id t).progressWidth =
      widthOf (progressFrac (t - t0).toNat (secs * 1000)) := by
  obtain ⟨h1, h2, h3, h4, h5⟩ := h
  have hne : ¬ ((secs : Int) * 1000 = 0) := by omega
  have hcond : t - t0 = 0 ∨ (0 < t - t0 ↔ 0 < (secs : Int) * 1000) := by
    by_cases hz : t - t0 = 0
    · exact Or.inl hz
    · exact Or.inr ⟨fun _ => by omega, fun _ => by omega⟩
  have hna1 : (t - t0).natAbs = (t - t0).toNat := by omega
  have hna2 : ((secs : Int) * 1000).natAbs = secs * 1000 := by omega
  have hnot : ¬ (progressFrac (t - t0).toNat (secs * 1000)).den ≤
      (progressFrac (t - t0).toNat (secs * 1000)).num := by
    rw [(progressFrac_full_iff _ _ (by omega) hbig).1]
    omega
  simp only [intervalFires, h2, if_true, progressTick, h3, h4, hne, if_false, hcond, hna1,
    hna2, hnot]
  refine ⟨⟨?_, ?_, ?_, ?_, ?_⟩, ?_⟩ <;> first | rfl | assumption | trivial

theorem progressTick_reach (s : RampTest) (id : Nat) (secs : Nat) (t0 t : Int)
    (stops : List Int) (hs : 0 < secs) (hbig : secs * 1000 ≤ 2 ^ 53)
    (h : Ticking s id ((secs : Int) * 1000) t0 stops)
    (hge : (secs : Int) * 1000 ≤ t - t0) :
    Ended (intervalFires s id t) id t stops := by
  obtain ⟨h1, h2, h3, h4, h5⟩ := h
  have hne : ¬ ((secs : Int) * 1000 = 0) := by omega
  have hcond : t - t0 = 0 ∨ (0 < t - t0 ↔ 0 < (secs : Int) * 1000) :=
    Or.inr ⟨fun _ => by omega, fun _ => by omega⟩
  have hna1 : (t - t0).natAbs = (t - t0).toNat := by omega
  have hna2 : ((secs : Int) * 1000).natAbs = secs * 1000 := by omega
  have hfull : progressFrac (t - t0).toNat (secs * 1000) = ⟨1, 1⟩ :=
    (progressFrac_full_iff _ _ (by omega) hbig).2.2 (by omega)
  simp only [intervalFires, h2, if_true, progressTick, h3, h4, hne, if_false, hcond, hna1,
    hna2, hfull, le_refl, h1, h5, widthOf_full]
  exact ⟨not_mem_clearInterval _ _, rfl, rfl⟩

theorem intervalFires_ended (s : RampTest) (id : Nat) (t t1 : Int) (stops : List Int)
    (h : Ended s id t stops) : intervalFires s id t1 = s := by
  simp [intervalFires, h.1]

theorem ticking_foldl (s : RampTest) (id : Nat) (secs : Nat) (t0 : Int) (stops : List Int)
    (hs : 0 < secs) (hbig : secs * 1000 ≤ 2 ^ 53) (ticks : List Int)
    (h : Ticking s id ((secs : Int) * 1000) t0 stops)
    (hticks : ∀ x ∈ ticks, t0 ≤ x ∧ x - t0 < (secs : Int) * 1000) :
    Ticking (ticks.foldl (fun st x => intervalFires st id x) s) id ((secs : Int) * 1000) t0
      stops := by
  induction ticks generalizing s with
  | nil => simpa using h
  | cons x xs ih =>
    have hx := hticks x (by simp)
    have h1 := (progressTick_before s id secs t0 x stops hs hbig h hx.1 hx.2).1
    simpa using ih _ h1 (fun y hy => hticks y (by simp [hy]))

theorem ended_foldl (s : RampTest) (id : Nat) (t : Int) (stops : List Int) (ticks : List Int)
    (h : Ended s id t stops) :
    ticks.foldl (fun st x => intervalFires st id x) s = s := by
  induction ticks with
  | nil => rfl
  | cons x xs ih =>
    simp only [List.foldl_cons, intervalFires_ended s id t x stops h]
    exact ih

theorem ticking_startProgress (s : RampTest) (secs : Int) (t0 : Int) :
    Ticking (startProgress s secs t0) s.nextId (secs * 1000) t0 s.autoStops := by
  refine ⟨rfl, ?_, rfl, rfl, rfl⟩
  simp [startProgress, setProgressActive]

/-- C11: for a test of `secs > 0` seconds (with `secs * 1000` within the
integers a double holds exactly) started at `t0`, the fraction
`progressFrac e (secs * 1000)` computed at elapsed time `e` lies in `[0, 1]`,
equals 1 exactly when `e ≥ 1000 * secs`, is within the rounding error
`2^-53` (relative) of `e / (1000 * secs)` below that, and does not decrease when
`e` grows.  A tick before the end writes the width of that fraction and keeps
the interval; the first tick with `e ≥ 1000 * secs` fills the bar, clears the
interval and schedules one automatic stop, and later ticks of that interval
change nothing, so exactly one automatic stop is added per test; when it is due
it calls `stopTest(true)`. -/
theorem progress_fraction (secs : Nat) (hs : 0 < secs) (hbig : secs * 1000 ≤ 2 ^ 53) :
    (∀ e : Nat,
      0 < (progressFrac e (secs * 1000)).den ∧
      (progressFrac e (secs * 1000)).num ≤ (progressFrac e (secs * 1000)).den ∧
      ((progressFrac e (secs * 1000)).num = (progressFrac e (secs * 1000)).den ↔
        secs * 1000 ≤ e) ∧
      (0 < e → e < secs * 1000 →
        |(progressFrac e (secs * 1000)).toRat - (e : ℚ) / ((secs * 1000 : Nat) : ℚ)| ≤
          (e : ℚ) / ((secs * 1000 : Nat) : ℚ) * (2 : ℚ) ^ (-53 : Int))) ∧
    (∀ e1 e2 : Nat, e1 ≤ e2 →
      (progressFrac e1 (secs * 1000)).num * (progressFrac e2 (secs * 1000)).den ≤
        (progressFrac e2 (secs * 1000)).num * (progressFrac e1 (secs * 1000)).den) ∧
    (∀ (s : RampTest) (t0 : Int) (ticks : List Int),
      (∀ x ∈ ticks, t0 ≤ x ∧ x - t0 < (secs : Int) * 1000) →
      Ticking
        (ticks.foldl (fun st x => intervalFires st s.nextId x) (startProgress s secs t0))
        s.nextId ((secs : Int) * 1000) t0 s.autoStops ∧
      ∀ t : Int, t0 ≤ t → t - t0 < (secs : Int) * 1000 →
        (intervalFires
          (ticks.foldl (fun st x => intervalFires st s.nextId x) (startProgress s secs t0))
          s.nextId t).progressWidth = widthOf (progressFrac (t - t0).toNat (secs * 1000))) ∧
    (∀ (s : RampTest) (t0 : Int) (pre post : List Int) (t : Int),
      (∀ x ∈ pre, t0 ≤ x ∧ x - t0 < (secs : Int) * 1000) → (secs : Int) * 1000 ≤ t - t0 →
      Ended
        ((pre ++ t :: post).foldl (fun st x => intervalFires st s.nextId x)
          (startProgress s secs t0))
        s.nextId t s.autoStops) ∧
    (∀ (s : RampTest) (id : Nat) (t : Int), Ended s id t [] →
      (autoStopFires s).autoStops = [] ∧
      (autoStopFires s).requests = s.requests ++ [Request.alarmtestStop] ∧
      (autoStopFires s).awaitingStop = s.awaitingStop ++ [true]) := by
  have hd : 0 < secs * 1000 := by omega
  refine ⟨?_, ?_, ?_, ?_, ?_⟩
  · intro e
    obtain ⟨h1, h2⟩ := progressFrac_range e (secs * 1000)
    exact ⟨h1, h2, (progressFrac_full_iff e _ hd hbig).2.1,
      fun he hed => progressFrac_near e _ he hed hbig⟩
  · intro e1 e2 h
    exact progressFrac_mono e1 e2 _ hd h
  · intro s t0 ticks hticks
    have h1 := ticking_foldl (startProgress s secs t0) s.nextId secs t0 s.autoStops hs hbig
      ticks (ticking_startProgress s secs t0) hticks
    refine ⟨h1, ?_⟩
    intro t ht0 hlt
    exact (progressTick_before _ s.nextId secs t0 t s.autoStops hs hbig h1 ht0 hlt).2
  · intro s t0 pre post t hpre hge
    have h1 := ticking_foldl (startProgress s secs t0) s.nextId secs t0 s.autoStops hs hbig
      pre (ticking_startProgress s secs t0) hpre
    have h2 := progressTick_reach _ s.nextId secs t0 t s.autoStops hs hbig h1 hge
    rw [List.foldl_append, List.foldl_cons, ended_foldl _ s.nextId t s.autoStops post h2]
    exact h2
  · intro s id t h
    obtain ⟨-, -, h3⟩ := h
    simp [autoStopFires, h3, stopTest]

/-- Witness for C11: a test of 10 seconds started at 1000 ms from the sample
state, with ticks at 1100, 5000, 11000 and 11100 ms: the tick at 11000 is the
first at or after 10 seconds, and the run ends with interval 4 cleared, the bar
at 100.0 % and the single automatic stop due at 11300. -/
theorem progress_fraction_witness :
    0 < 10 ∧ 10 * 1000 ≤ 2 ^ 53 ∧
    Ended
      (([1100, 5000] ++ 11000 :: [11100]).foldl
        (fun st x => intervalFires st sampleRampTest.nextId x)
        (startProgress sampleRampTest (10 : Nat) 1000))
      sampleRampTest.nextId 11000 sampleRampTest.autoStops ∧
    ([1100, 5000, 11000, 11100].foldl (fun st x => intervalFires st 4 x)
        (startProgress sampleRampTest 10 1000)).autoStops = [11300] ∧
    ([1100, 5000].foldl (fun st x => intervalFires st 4 x)
        (startProgress sampleRampTest 10 1000)).progressWidth = 400 :=
  ⟨by decide, by decide,
    (progress_fraction 10 (by decide) (by decide)).2.2.2.1 sampleRampTest 1000 [1100, 5000]
      [11100] 11000 (by decide) (by decide),
    by decide, by decide⟩

/-! ## Theorems: the brightness round trip -/

/-- C22: for every integer `p` in `0..100`, `toRaw p` lies in `0..255`, with
`toRaw 0 = 0` and `toRaw 100 = 255`, and `toPercent (toRaw p) = p`; so when the
slider stands at `p` and a snapshot echoes the level that `sendRGB` sends,
`fetchStatus` writes `p` back to the slider and to the text. -/
theorem toPercent_toRaw_exact_roundtrip (p : Nat) (hp : p ≤ 100) (v : LampView)
    (js : StatusJson) (now : Int) (r g b : Nat) (hv : v.brightnessSlider = some p)
    (hjs : js.rgb = some ⟨some r, some g, some b, some (sendRGB v).bri⟩) :
    toRaw p ≤ 255 ∧ toRaw 0 = 0 ∧ toRaw 100 = 255 ∧ toPercent (toRaw p) = p ∧
      (fetchStatus v (some js) now).brightnessSlider = some p ∧
      (fetchStatus v (some js) now).brightnessText = percentText (some p) := by
  have h1 := toRaw_eq_exact p (by omega)
  have h0 := toRaw_eq_exact 0 (by omega)
  have h100 := toRaw_eq_exact 100 (by omega)
  have h2 := toPercent_eq_exact (toRaw p) (by rw [h1]; omega)
  have h3 := toPercent_toRaw_exact p
  have h4 : toPercent (toRaw p) = p := by rw [h2, h1, h3]
  have h5 : (sendRGB v).bri = toRaw p := by
    simp only [sendRGB, hv, sliderValue, Nat.min_eq_left hp]
  refine ⟨by rw [h1]; omega, by rw [h0], by rw [h100], h4, ?_, ?_⟩
  · simp only [fetchStatus, hjs, h5, Option.map_some', h4]
  · simp only [fetchStatus, hjs, h5, Option.map_some', h4]

theorem toPercent_toRaw_exact_roundtrip_witness :
    toRaw 80 ≤ 255 ∧ toRaw 0 = 0 ∧ toRaw 100 = 255 ∧ toPercent (toRaw 80) = 80 ∧
      (fetchStatus sampleLampView
        (some ⟨none, true, some ⟨some 1, some 2, some 3, some 204⟩, none⟩) 0).brightnessSlider =
        some 80 :=
  have h := toPercent_toRaw_exact_roundtrip 80 (by decide) sampleLampView
    ⟨none, true, some ⟨some 1, some 2, some 3, some 204⟩, none⟩ 0 1 2 3 rfl (by decide)
  ⟨h.1, h.2.1, h.2.2.1, h.2.2.2.1, h.2.2.2.2.1⟩

/-! ## Theorems: color conversions -/

set_option maxRecDepth 100000 in
theorem upperHexOf_byte : ∀ n, n < 256 →
    (upperHexOf n).length = 2 ∧
    (∀ c ∈ upperHexOf n, isUpperHex c = true) ∧
    parseIntRadix true (upperHexOf n) = some (n : Int) ∧
    (upperHexOf n).all (fun c => (hexDigitVal c).isSome) = true ∧
    parseIntRadix true ((upperHexOf n).map Char.toLower) = some (n : Int) := by
  decide

set_option maxRecDepth 100000 in
theorem hexPair : ∀ a ∈ hexChars, ∀ b ∈ hexChars,
    parseIntRadix true [a, b] = some ((hexDigitsNat [a, b] : Nat) : Int) ∧
    upperHexOf (hexDigitsNat [a, b]) = [a.toUpper, b.toUpper] := by
  decide

theorem mem_hexChars {c : Char} (h : (hexDigitVal c).isSome = true) : c ∈ hexChars := by
  have hc : Char.ofNat c.toNat = c := Char.ofNat_toNat c
  have hb : (48 ≤ c.toNat ∧ c.toNat ≤ 57) ∨ (97 ≤ c.toNat ∧ c.toNat ≤ 102) ∨
      (65 ≤ c.toNat ∧ c.toNat ≤ 70) := by
    unfold hexDigitVal at h
    split_ifs at h with h1 h2 h3
    · left
      simp [Char.isDigit] at h1
      simp [Char.toNat]
      exact h1
    · exact Or.inr (Or.inl h2)
    · exact Or.inr (Or.inr h3)
    · simp at h
  generalize c.toNat = n at hc hb
  subst hc
  rcases hb with ⟨h1, h2⟩ | ⟨h1, h2⟩ | ⟨h1, h2⟩ <;> interval_cases n <;> decide

theorem take_two_append {α : Type} (xs ys : List α) (h : xs.length = 2) :
    (xs ++ ys).take 2 = xs ∧ (xs ++ ys).drop 2 = ys := by
  match xs, h with
  | [a, b], _ => simp

theorem rgbToHex_data (r g b : Nat) :
    (rgbToHex r g b).data = '#' :: (upperHexOf r ++ (upperHexOf g ++ upperHexOf b)) := by
  have h : Char.toUpper '#' = '#' := by decide
  simp [rgbToHex, upperHexOf, h]

theorem hexToRgb_hash (xs ys zs : List Char) (hx : xs.length = 2) (hy : ys.length = 2)
    (hz : zs.length = 2) :
    hexToRgb (String.mk ('#' :: (xs ++ (ys ++ zs)))) =
      ⟨parseIntRadix true xs, parseIntRadix true ys, parseIntRadix true zs⟩ := by
  have h1 := take_two_append xs (ys ++ zs) hx
  have h2 := take_two_append ys zs hy
  have h3 : (xs ++ (ys ++ zs)).drop 4 = zs := by
    have : (xs ++ (ys ++ zs)).drop 4 = ((xs ++ (ys ++ zs)).drop 2).drop 2 := by
      rw [List.drop_drop]
    rw [this, h1.2, h2.2]
  have h4 : zs.take 2 = zs := by rw [← hz]; exact List.take_length zs
  simp only [hexToRgb, removeFirstHash, if_true]
  rw [h1.1, h1.2, h2.1, h3, h4]

theorem hexToRgb_rgbToHex {r g b : Nat} (hr : r < 256) (hg : g < 256) (hb : b < 256) :
    hexToRgb (rgbToHex r g b) = ⟨some r, some g, some b⟩ := by
  obtain ⟨lr, _, pr, _, _⟩ := upperHexOf_byte r hr
  obtain ⟨lg, _, pg, _, _⟩ := upperHexOf_byte g hg
  obtain ⟨lb, _, pb, _, _⟩ := upperHexOf_byte b hb
  have h : rgbToHex r g b = String.mk ('#' :: (upperHexOf r ++ (upperHexOf g ++ upperHexOf b))) := by
    rw [← rgbToHex_data]
  rw [h, hexToRgb_hash _ _ _ lr lg lb, pr, pg, pb]

theorem rgbToHex_hexToRgb (a b c d e f : Char) (ha : a ∈ hexChars) (hb : b ∈ hexChars)
    (hc : c ∈ hexChars) (hd : d ∈ hexChars) (he : e ∈ hexChars) (hf : f ∈ hexChars) :
    hexToRgb (String.mk ['#', a, b, c, d, e, f]) =
        ⟨some (hexDigitsNat [a, b] : Nat), some (hexDigitsNat [c, d] : Nat),
          some (hexDigitsNat [e, f] : Nat)⟩ ∧
      rgbToHex (hexDigitsNat [a, b]) (hexDigitsNat [c, d]) (hexDigitsNat [e, f]) =
        String.mk (['#', a, b, c, d, e, f].map Char.toUpper) := by
  obtain ⟨p1, u1⟩ := hexPair a ha b hb
  obtain ⟨p2, u2⟩ := hexPair c hc d hd
  obtain ⟨p3, u3⟩ := hexPair e he f hf
  constructor
  · have := hexToRgb_hash [a, b] [c, d] [e, f] rfl rfl rfl
    simp only [List.cons_append, List.nil_append] at this
    rw [this, p1, p2, p3]
  · have h : Char.toUpper '#' = '#' := by decide
    have hd := rgbToHex_data (hexDigitsNat [a, b]) (hexDigitsNat [c, d]) (hexDigitsNat [e, f])
    rw [u1, u2, u3] at hd
    have : rgbToHex (hexDigitsNat [a, b]) (hexDigitsNat [c, d]) (hexDigitsNat [e, f]) =
        String.mk (rgbToHex (hexDigitsNat [a, b]) (hexDigitsNat [c, d]) (hexDigitsNat [e, f])).data := rfl
    rw [this, hd]
    simp [h]

theorem colorValue_rgbToHex {r g b : Nat} (hr : r < 256) (hg : g < 256) (hb : b < 256) :
    hexToRgb (colorValue (rgbToHex r g b)) = ⟨some r, some g, some b⟩ := by
  obtain ⟨lr, _, _, ar, pr⟩ := upperHexOf_byte r hr
  obtain ⟨lg, _, _, ag, pg⟩ := upperHexOf_byte g hg
  obtain ⟨lb, _, _, ab, pb⟩ := upperHexOf_byte b hb
  have hlen : (upperHexOf r ++ (upperHexOf g ++ upperHexOf b)).length = 6 := by
    simp [lr, lg, lb]
  have hall : (upperHexOf r ++ (upperHexOf g ++ upperHexOf b)).all
      (fun c => (hexDigitVal c).isSome) = true := by
    simp only [List.all_append, ar, ag, ab, Bool.and_self]
  have h : colorValue (rgbToHex r g b) =
      String.mk ('#' :: ((upperHexOf r).map Char.toLower ++
        ((upperHexOf g).map Char.toLower ++ (upperHexOf b).map Char.toLower))) := by
    unfold colorValue
    rw [rgbToHex_data]
    simp only [hlen, hall, and_self, if_true, List.map_append]
  rw [h, hexToRgb_hash _ _ _ (by simp [lr]) (by simp [lg]) (by simp [lb]), pr, pg, pb]

/-- C23: for `r`, `g`, `b` in `0..255`, `rgbToHex r g b` has 7 characters, a `#`
followed by six upper-case hexadecimal digits, and `hexToRgb` gives back
`r`, `g`, `b`; for six hexadecimal digits `ds` in either case, `rgbToHex` of the
components of `hexToRgb` of `#` followed by `ds` is that string in upper case;
and after `fetchStatus` wrote the color `r`, `g`, `b` of a snapshot to the
picker, `sendRGB` sends `r`, `g`, `b`. -/
theorem color_roundtrip (r g b : Nat) (hr : r ≤ 255) (hg : g ≤ 255) (hb : b ≤ 255)
    (ds : List Char) (hlen : ds.length = 6)
    (hhex : ∀ c ∈ ds, (hexDigitVal c).isSome = true)
    (v : LampView) (js : StatusJson) (now : Int) (bri : Option Nat)
    (hrgb : js.rgb = some ⟨some r, some g, some b, bri⟩) :
    ((rgbToHex r g b).length = 7 ∧
      ∃ us, (rgbToHex r g b).data = '#' :: us ∧ us.length = 6 ∧
        ∀ c ∈ us, isUpperHex c = true) ∧
    hexToRgb (rgbToHex r g b) = ⟨some r, some g, some b⟩ ∧
    (∃ r1 g1 b1 : Nat, hexToRgb (String.mk ('#' :: ds)) = ⟨some r1, some g1, some b1⟩ ∧
      rgbToHex r1 g1 b1 = String.mk (('#' :: ds).map Char.toUpper)) ∧
    ((sendRGB (fetchStatus v (some js) now)).r = some (r : Int) ∧
      (sendRGB (fetchStatus v (some js) now)).g = some (g : Int) ∧
      (sendRGB (fetchStatus v (some js) now)).b = some (b : Int)) := by
  have hr1 : r < 256 := by omega
  have hg1 : g < 256 := by omega
  have hb1 : b < 256 := by omega
  obtain ⟨lr, ur, _, _, _⟩ := upperHexOf_byte r hr1
  obtain ⟨lg, ug, _, _, _⟩ := upperHexOf_byte g hg1
  obtain ⟨lb, ub, _, _, _⟩ := upperHexOf_byte b hb1
  have hdata := rgbToHex_data r g b
  refine ⟨⟨?_, _, hdata, by simp [lr, lg, lb], ?_⟩, hexToRgb_rgbToHex hr1 hg1 hb1, ?_, ?_⟩
  · show (rgbToHex r g b).data.length = 7
    rw [hdata]
    simp [lr, lg, lb]
  · intro c hc
    rcases List.mem_append.1 hc with h | h
    · exact ur c h
    · rcases List.mem_append.1 h with h | h
      · exact ug c h
      · exact ub c h
  · match ds, hlen, hhex with
    | [a, b1, c, d, e, f], _, hh =>
      have h := rgbToHex_hexToRgb a b1 c d e f (mem_hexChars (hh a (by simp)))
        (mem_hexChars (hh b1 (by simp))) (mem_hexChars (hh c (by simp)))
        (mem_hexChars (hh d (by simp))) (mem_hexChars (hh e (by simp)))
        (mem_hexChars (hh f (by simp)))
      exact ⟨_, _, _, h.1, h.2⟩
  · have hs : (fetchStatus v (some js) now).colorPicker = rgbToHex r g b := by
      simp only [fetchStatus, hrgb]
    simp only [sendRGB, hs, colorValue_rgbToHex hr1 hg1 hb1, and_self]

theorem color_roundtrip_witness :
    hexToRgb (rgbToHex 18 171 255) = ⟨some 18, some 171, some 255⟩ ∧
      (∃ r1 g1 b1 : Nat, hexToRgb "#1a2B3c" = ⟨some r1, some g1, some b1⟩ ∧
        rgbToHex r1 g1 b1 = "#1A2B3C") :=
  have h := color_roundtrip 18 171 255 (by decide) (by decide) (by decide)
    "1a2B3c".data (by decide) (by decide) sampleLampView
    ⟨none, true, some ⟨some 18, some 171, some 255, some 204⟩, some 0⟩ 0 (some 204) rfl
  ⟨h.2.1, h.2.2.1⟩

/-! ## Theorems: interleavings of the wake-ramp test -/

/-- C21: two runs from the freshly loaded page with 10 s in the ramp input.
When `Stop Test` is clicked before the start request is answered, the stop
completes with the interval 1 of that test still active, and its tick at 180 ms
still writes the progress width.  When a finished test is stopped by hand and a
second test is started within 300 ms, the second test (interval 2) is running
with the automatic stop of the first one pending, and that timeout clears
interval 2 and sends `/alarmtest/stop`. -/
theorem rampRun_tick_outlives_stop :
    (∃ s, rampRun (initialRampTest "10") 0 earlyStopEvents = some s ∧ Stopped s ∧
      s.testTimer = some 1 ∧ 1 ∈ s.intervals ∧ s.progressActive = false ∧
      s.progressWidth = 0 ∧ (rampStep s 180 (RampEvent.tick 1)).progressWidth = 10) ∧
    (∃ s, rampRun (initialRampTest "10") 0 secondTestEvents = some s ∧
      s.testTimer = some 2 ∧ 2 ∈ s.intervals ∧ s.testStartMs = 10110 ∧
      s.autoStops = [10310] ∧
      RampEvent.enabled s 10310 RampEvent.autoStopTimeout = true ∧
      (rampStep s 10310 RampEvent.autoStopTimeout).intervals = [] ∧
      (rampStep s 10310 RampEvent.autoStopTimeout).requests =
        s.requests ++ [Request.alarmtestStop] ∧
      Stopped (rampStep (rampStep s 10310 RampEvent.autoStopTimeout) 10320
        RampEvent.stopResponse)) := by
  refine ⟨⟨_, rfl, ?_⟩, ⟨_, rfl, ?_⟩⟩
  · unfold Stopped
    decide
  · unfold Stopped
    decide

end Lumina
